import Mathlib

/-!
# Verification of the proxer build pipeline and stack orchestrator

A shallow embedding of the core of the `proxer` (`pxc`) codebase:

* the manifest model and its validation (`internal/models/lxcfile.go`,
  `internal/models/stack.go`),
* the stack dependency resolver (`LXCStack.GetServiceDependencyOrder`),
* the template build pipeline (`pkg/builder`, `Builder.BuildTemplate`),
* the deployment orchestrator (`pkg/runner`, `Orchestrator.Up` / `Down`).

Go maps are modelled as association lists: a `List (String × V)` fixes one
iteration order, and quantifying over all association lists quantifies over
all iteration orders of the Go map.  A missing key yields the zero value,
exactly as a Go map read does.  Machine `int` fields are modelled as `Int`.
External `pct` command executions are modelled by explicit oracle records
that decide the success or failure of each external call; the functions
under verification are pure functions of (manifest, oracle) and additionally
record the trace of external phases they perform.
-/

namespace Proxer

/-! ## Data model (`internal/models`) -/

/-- `models.Resources` — resource limits (Go `int` fields). -/
structure Resources where
  cores : Int := 0
  cpuLimit : Int := 0
  cpuUnits : Int := 0
  memory : Int := 0
  swap : Int := 0
  rootFS : Int := 0
  netRate : Int := 0
  deriving Repr, DecidableEq

/-- `models.Features` — LXC feature toggles. -/
structure Features where
  unprivileged : Bool := false
  nesting : Bool := false
  keyctl : Bool := false
  fuse : Bool := false
  deriving Repr, DecidableEq

/-- `models.CopyStep` — one file copy operation. -/
structure CopyStep where
  source : String := ""
  dest : String := ""
  owner : String := ""
  mode : String := ""
  deriving Repr, DecidableEq

/-- `models.SetupStep` — one build step.  The Go struct duck-types the
action: whichever of the four fields is populated.  `env` is a Go
`map[string]string`, whose `nil` / non-`nil` distinction matters to the
code, hence `Option`; `some []` is a non-nil empty map. -/
structure SetupStep where
  run : String := ""
  copy : Option CopyStep := none
  env : Option (List (String × String)) := none
  workDir : String := ""
  deriving Repr, DecidableEq

/-- `models.Mount` — a mount point (`Type` field renamed `mountType`). -/
structure Mount where
  source : String := ""
  target : String := ""
  mountType : String := ""
  readOnly : Bool := false
  deriving Repr, DecidableEq

/-- `models.Port` — a port mapping (Go `int` fields). -/
structure Port where
  container : Int := 0
  host : Int := 0
  protocol : String := ""
  deriving Repr, DecidableEq

/-- `models.HealthCheck` (only the field validation reads). -/
structure HealthCheck where
  test : String := ""
  deriving Repr, DecidableEq

/-- `models.LXCfile` — a build manifest (`from` is a Lean keyword, renamed
`fromBase`).  Fields not read by the verified code paths are omitted. -/
structure LXCfile where
  fromBase : String := ""
  features : Option Features := none
  resources : Option Resources := none
  setup : List SetupStep := []
  mounts : List Mount := []
  ports : List Port := []
  health : Option HealthCheck := none
  cleanup : List SetupStep := []
  deriving Repr, DecidableEq

/-- The Go `Service.Build interface{}` field: absent (`nil`), a YAML string,
a YAML mapping (the keys `GetBuildConfig` reads), or any other YAML value. -/
inductive GoBuild where
  | str (path : String)
  | obj (context dockerfile target : String) (args : List (String × String))
  | other
  deriving Repr, DecidableEq

/-- `models.BuildConfig` — normalised build configuration. -/
structure BuildConfig where
  context : String := ""
  dockerfile : String := ""
  target : String := ""
  args : List (String × String) := []
  deriving Repr, DecidableEq

/-- `models.Service` — one service of a stack (fields the verified code
reads). -/
structure Service where
  build : Option GoBuild := none
  template : String := ""
  hostname : String := ""
  resources : Option Resources := none
  environment : List (String × String) := []
  volumes : List String := []
  dependsOn : List String := []
  restart : String := ""
  networks : List String := []
  scale : Int := 0
  healthPresent : Bool := false
  deriving Repr, DecidableEq

/-- `Service.GetBuildConfig` (stack.go): a string build field is a context
directory; a mapping is converted field-wise; anything else yields `nil`. -/
def Service.getBuildConfig (s : Service) : Option BuildConfig :=
  match s.build with
  | none => none
  | some (.str path) => some { context := path }
  | some (.obj c d t a) => some { context := c, dockerfile := d, target := t, args := a }
  | some .other => none

/-- `Service.HasBuild` (stack.go): the build field is non-nil. -/
def Service.hasBuild (s : Service) : Bool :=
  s.build.isSome

/-- `models.ProxmoxConfig`. -/
structure ProxmoxConfig where
  node : String := ""
  storage : String := ""
  templateStorage : String := ""
  deriving Repr, DecidableEq

/-- `models.Settings` — global stack settings (fields the verified code
reads). -/
structure Settings where
  defaultResources : Option Resources := none
  proxmox : Option ProxmoxConfig := none
  deriving Repr, DecidableEq

/-- `models.Hooks` — lifecycle hooks. -/
structure Hooks where
  preStart : List String := []
  postStart : List String := []
  preStop : List String := []
  postStop : List String := []
  deriving Repr, DecidableEq

/-- `models.LXCStack` — a stack manifest.  The `Services`, `Volumes` and
`Networks` Go maps are association lists (see the file header); the volume
and network definitions themselves carry no data the verified code reads. -/
structure LXCStack where
  version : String := ""
  services : List (String × Service) := []
  volumes : List String := []
  networks : List String := []
  settings : Option Settings := none
  hooks : Option Hooks := none
  deriving Repr, DecidableEq

/-- Go map read `s.Services[name]`: first binding, or the zero value's
field of interest via `Option`. -/
def findService (svcs : List (String × Service)) (name : String) : Option Service :=
  match svcs with
  | [] => none
  | p :: rest => if p.1 = name then some p.2 else findService rest name

/-- The `DependsOn` list of `s.Services[name]`; a missing key gives the
zero-value `Service`, whose `DependsOn` is empty — exactly Go's behaviour
in `GetServiceDependencyOrder`. -/
def lookupDeps (svcs : List (String × Service)) (name : String) : List String :=
  match findService svcs name with
  | some s => s.dependsOn
  | none => []

/-- The keys of the services map. -/
def serviceKeys (svcs : List (String × Service)) : List String :=
  svcs.map Prod.fst

end Proxer

namespace Proxer

/-! ## Dependency resolver (`LXCStack.GetServiceDependencyOrder`)

The Go function does a depth-first traversal with two boolean maps
`visiting` / `visited` and an output slice `order`.  Setting
`visiting[name] = false` is indistinguishable from deleting the key, so
`visiting` is modelled as a list from which the name is filtered out.
Go recursion is modelled with a fuel parameter; `resolverFuel` below is
provably sufficient (`visit_no_ofl`), so the `outOfFuel` branch is
unreachable for the fuel `getServiceDependencyOrder` passes. -/

/-- The mutable state of the Go closure `visit`. -/
structure VState where
  visiting : List String := []
  visited : List String := []
  order : List String := []
  deriving Repr, DecidableEq

/-- Resolver failure: the cycle error the Go code returns, plus the
fuel-exhaustion artifact of the embedding (proved unreachable). -/
inductive ResolverErr where
  | cycle (name : String)
  | outOfFuel
  deriving Repr, DecidableEq

/-- A `for _, x := range l { if err := f(x); err != nil { return err } }`
loop over the visit closure: visit each name in turn, threading the state
and propagating the first error.  Used both for the `DependsOn` loop and
for the top-level loop over the services map. -/
def visitList (f : String → VState → Except ResolverErr VState) :
    List String → VState → Except ResolverErr VState
  | [], st => .ok st
  | d :: ds, st =>
    match f d st with
    | .error e => .error e
    | .ok st' => visitList f ds st'

/-- The Go closure `visit` (stack.go lines 298–320): cycle check on
`visiting`, memo check on `visited`, mark visiting, recurse into
`DependsOn`, unmark, mark visited, append to `order`. -/
def visit (svcs : List (String × Service)) :
    Nat → String → VState → Except ResolverErr VState
  | 0, _, _ => .error .outOfFuel
  | fuel + 1, name, st =>
    if name ∈ st.visiting then
      .error (.cycle name)
    else if name ∈ st.visited then
      .ok st
    else
      match visitList (visit svcs fuel) (lookupDeps svcs name)
          { st with visiting := name :: st.visiting } with
      | .error e => .error e
      | .ok st2 =>
        .ok { visiting := st2.visiting.filter (fun x => x ≠ name),
              visited := name :: st2.visited,
              order := st2.order ++ [name] }

/-- Every name the traversal can touch: the keys and every `DependsOn`
entry (deduplicated). -/
def allNames (svcs : List (String × Service)) : List String :=
  (svcs.map Prod.fst ++ (svcs.map fun p => p.2.dependsOn).flatten).dedup

/-- Fuel that provably never runs out: one more than the number of
distinct names. -/
def resolverFuel (svcs : List (String × Service)) : Nat :=
  (allNames svcs).length + 1

/-- The cycle error message of stack.go line 300. -/
def cycleMsg (name : String) : String :=
  "circular dependency detected involving service '" ++ name ++ "'"

/-- `LXCStack.GetServiceDependencyOrder` (stack.go lines 292–329): visit
every key of the services map in iteration order, then return the
accumulated order.  The `outOfFuel` rendering is arbitrary: that branch
is unreachable (`resolver_total`). -/
def getServiceDependencyOrder (svcs : List (String × Service)) :
    Except String (List String) :=
  match visitList (visit svcs (resolverFuel svcs)) (serviceKeys svcs) {} with
  | .ok st => .ok st.order
  | .error (.cycle n) => .error (cycleMsg n)
  | .error .outOfFuel => .error "out of fuel"

end Proxer

namespace Proxer

/-! ## Resolver lemmas -/

/-- Filtering away an absent element is the identity. -/
theorem filter_ne_of_not_mem (l : List String) (a : String) (h : a ∉ l) :
    l.filter (fun x => x ≠ a) = l :=
  List.filter_eq_self.mpr (fun _ hx => decide_eq_true (fun hxa => h (hxa ▸ hx)))

/-- A successful `findService` pair is a binding of the map. -/
theorem findService_mem {svcs : List (String × Service)} {name : String}
    {s : Service} (h : findService svcs name = some s) : (name, s) ∈ svcs := by
  induction svcs with
  | nil => simp [findService] at h
  | cons p rest ih =>
    by_cases hp : p.1 = name
    · simp only [findService, if_pos hp] at h
      have hps : p = (name, s) := Prod.ext hp (Option.some.inj h)
      rw [← hps]
      exact List.mem_cons_self p rest
    · simp only [findService, if_neg hp] at h
      exact List.mem_cons_of_mem p (ih h)

/-- With unique keys, a binding of the map is found by `findService`. -/
theorem findService_of_mem {svcs : List (String × Service)} {name : String}
    {s : Service} (hnd : (serviceKeys svcs).Nodup) (h : (name, s) ∈ svcs) :
    findService svcs name = some s := by
  induction svcs with
  | nil => simp at h
  | cons p rest ih =>
    simp only [serviceKeys, List.map_cons, List.nodup_cons] at hnd
    rcases List.mem_cons.mp h with heq | hmem
    · subst heq; simp [findService]
    · have hp : p.1 ≠ name := by
        intro hc
        exact hnd.1 (hc ▸ (List.mem_map.mpr ⟨(name, s), hmem, rfl⟩))
      simp only [findService, if_neg hp]
      exact ih hnd.2 hmem

/-- Every `DependsOn` entry is among `allNames`. -/
theorem lookupDeps_subset_allNames (svcs : List (String × Service))
    (name : String) : ∀ d ∈ lookupDeps svcs name, d ∈ allNames svcs := by
  intro d hd
  unfold lookupDeps at hd
  cases hfind : findService svcs name with
  | none => rw [hfind] at hd; simp at hd
  | some s =>
    rw [hfind] at hd
    have hmem : (name, s) ∈ svcs := findService_mem hfind
    unfold allNames
    rw [List.mem_dedup]
    refine List.mem_append_right _ ?_
    rw [List.mem_flatten]
    exact ⟨s.dependsOn, List.mem_map.mpr ⟨(name, s), hmem, rfl⟩, hd⟩

/-- Every key is among `allNames`. -/
theorem serviceKeys_subset_allNames (svcs : List (String × Service)) :
    ∀ k ∈ serviceKeys svcs, k ∈ allNames svcs := by
  intro k hk
  unfold allNames
  rw [List.mem_dedup]
  exact List.mem_append_left _ hk

/-- If every `depends_on` entry of every service is a key, every
`lookupDeps` result is a key. -/
theorem lookupDeps_subset_keys {svcs : List (String × Service)}
    (hdef : ∀ p ∈ svcs, ∀ d ∈ p.2.dependsOn, d ∈ serviceKeys svcs) :
    ∀ z, ∀ d ∈ lookupDeps svcs z, d ∈ serviceKeys svcs := by
  intro z d hd
  unfold lookupDeps at hd
  cases hfind : findService svcs z with
  | none => rw [hfind] at hd; simp at hd
  | some s =>
    rw [hfind] at hd
    exact hdef (z, s) (findService_mem hfind) d hd

end Proxer

namespace Proxer

/-- What one successful `visit` call guarantees about the state; used
pointwise for the loop lemma below. -/
def VisitOk (svcs : List (String × Service)) (name : String)
    (st st' : VState) : Prop :=
  st'.visiting = st.visiting ∧
  (∀ x, x ∈ st.visited → x ∈ st'.visited) ∧
  (∀ x, x ∈ st'.visited →
    x ∈ st.visited ∨ (x ∉ st.visiting ∧ (x = name ∨ ∃ z, x ∈ lookupDeps svcs z))) ∧
  name ∈ st'.visited

/-- Lifting `VisitOk` through the `visitList` loop. -/
theorem visitList_ok_props (svcs : List (String × Service))
    (f : String → VState → Except ResolverErr VState)
    (hf : ∀ d st st', f d st = .ok st' → VisitOk svcs d st st') :
    ∀ ds st st', visitList f ds st = .ok st' →
      st'.visiting = st.visiting ∧
      (∀ x, x ∈ st.visited → x ∈ st'.visited) ∧
      (∀ x, x ∈ st'.visited →
        x ∈ st.visited ∨ (x ∉ st.visiting ∧ (x ∈ ds ∨ ∃ z, x ∈ lookupDeps svcs z))) ∧
      (∀ d, d ∈ ds → d ∈ st'.visited) := by
  intro ds
  induction ds with
  | nil =>
    intro st st' h
    simp only [visitList] at h
    cases h
    exact ⟨rfl, fun x hx => hx, fun x hx => Or.inl hx, by simp⟩
  | cons d ds ih =>
    intro st st' h
    simp only [visitList] at h
    split at h
    · exact absurd h (by simp)
    · next stm heq =>
      obtain ⟨hviz1, hmono1, hnew1, hmem1⟩ := hf d st stm heq
      obtain ⟨hviz2, hmono2, hnew2, hall2⟩ := ih stm st' h
      refine ⟨hviz2.trans hviz1, fun x hx => hmono2 x (hmono1 x hx), ?_, ?_⟩
      · intro x hx
        rcases hnew2 x hx with hold | ⟨hnv, hsrc⟩
        · rcases hnew1 x hold with hold1 | ⟨hnv1, hsrc1⟩
          · exact Or.inl hold1
          · refine Or.inr ⟨hnv1, ?_⟩
            rcases hsrc1 with rfl | hz
            · exact Or.inl (List.mem_cons_self _ _)
            · exact Or.inr hz
        · rw [hviz1] at hnv
          refine Or.inr ⟨hnv, ?_⟩
          rcases hsrc with hd | hz
          · exact Or.inl (List.mem_cons_of_mem _ hd)
          · exact Or.inr hz
      · intro e he
        rcases List.mem_cons.mp he with rfl | hmem
        · exact hmono2 e hmem1
        · exact hall2 e hmem

/-- A successful `visit` restores `visiting` exactly, only grows
`visited`, adds only names that were not in-progress and are either the
visited name itself or somebody's dependency, and records the name. -/
theorem visit_ok_props (svcs : List (String × Service)) :
    ∀ fuel name st st', visit svcs fuel name st = .ok st' →
      VisitOk svcs name st st' := by
  intro fuel
  induction fuel with
  | zero => intro name st st' h; simp [visit] at h
  | succ fuel ih =>
    intro name st st' h
    simp only [visit] at h
    by_cases hvtg : name ∈ st.visiting
    · rw [if_pos hvtg] at h; exact absurd h (by simp)
    · rw [if_neg hvtg] at h
      by_cases hvtd : name ∈ st.visited
      · rw [if_pos hvtd] at h
        cases h
        exact ⟨rfl, fun x hx => hx, fun x hx => Or.inl hx, hvtd⟩
      · rw [if_neg hvtd] at h
        split at h
        · exact absurd h (by simp)
        · next st2 heq =>
          cases h
          obtain ⟨hviz, hmono, hnew, hall⟩ :=
            visitList_ok_props svcs (visit svcs fuel) (ih) _ _ _ heq
          refine ⟨?_, ?_, ?_, List.mem_cons_self _ _⟩
          · show (st2.visiting.filter (fun x => x ≠ name)) = st.visiting
            rw [hviz]
            show ((name :: st.visiting).filter (fun x => x ≠ name)) = st.visiting
            rw [List.filter_cons]
            simp only [decide_eq_true_eq]
            rw [if_neg (by simp)]
            exact filter_ne_of_not_mem st.visiting name hvtg
          · intro x hx
            exact List.mem_cons_of_mem _ (hmono x hx)
          · intro x hx
            rcases List.mem_cons.mp hx with rfl | hx2
            · exact Or.inr ⟨hvtg, Or.inl rfl⟩
            · rcases hnew x hx2 with hold | ⟨hnv, hsrc⟩
              · exact Or.inl hold
              · refine Or.inr ⟨fun hc => hnv (List.mem_cons_of_mem _ hc), ?_⟩
                rcases hsrc with hd | hz
                · exact Or.inr ⟨name, hd⟩
                · exact Or.inr hz

end Proxer

namespace Proxer

/-- `l` is a reverse-chronological completion stack: each element's
dependencies occur strictly later in the list (they finished earlier). -/
def topoStack (svcs : List (String × Service)) : List String → Prop
  | [] => True
  | a :: rest => (∀ b ∈ lookupDeps svcs a, b ∈ rest) ∧ topoStack svcs rest

/-- The resolver's loop invariant: visited names are unique, they form a
topological completion stack, and the output order is exactly the
reversed completion stack. -/
def Inv (svcs : List (String × Service)) (st : VState) : Prop :=
  st.visited.Nodup ∧ topoStack svcs st.visited ∧ st.order = st.visited.reverse

/-- `Inv` only reads `visited` and `order`, so re-marking `visiting` keeps it. -/
theorem Inv_set_visiting (svcs : List (String × Service)) (st : VState)
    (l : List String) : Inv svcs { st with visiting := l } ↔ Inv svcs st :=
  Iff.rfl

/-- The loop preserves the invariant if each call does. -/
theorem visitList_inv (svcs : List (String × Service))
    (f : String → VState → Except ResolverErr VState)
    (hf : ∀ d st st', f d st = .ok st' → Inv svcs st → Inv svcs st') :
    ∀ ds st st', visitList f ds st = .ok st' → Inv svcs st → Inv svcs st' := by
  intro ds
  induction ds with
  | nil =>
    intro st st' h hinv
    simp only [visitList] at h
    cases h
    exact hinv
  | cons d ds ih =>
    intro st st' h hinv
    simp only [visitList] at h
    split at h
    · exact absurd h (by simp)
    · next stm heq => exact ih stm st' h (hf d st stm heq hinv)

/-- Each successful `visit` preserves the invariant. -/
theorem visit_inv (svcs : List (String × Service)) :
    ∀ fuel name st st', visit svcs fuel name st = .ok st' →
      Inv svcs st → Inv svcs st' := by
  intro fuel
  induction fuel with
  | zero => intro name st st' h _; simp [visit] at h
  | succ fuel ih =>
    intro name st st' h hinv
    simp only [visit] at h
    by_cases hvtg : name ∈ st.visiting
    · rw [if_pos hvtg] at h; exact absurd h (by simp)
    · rw [if_neg hvtg] at h
      by_cases hvtd : name ∈ st.visited
      · rw [if_pos hvtd] at h
        cases h
        exact hinv
      · rw [if_neg hvtd] at h
        split at h
        · exact absurd h (by simp)
        · next st2 heq =>
          cases h
          have hinv2 : Inv svcs st2 :=
            visitList_inv svcs (visit svcs fuel) (ih) _ _ _ heq hinv
          obtain ⟨hnd2, htopo2, hord2⟩ := hinv2
          obtain ⟨hviz, hmono, hnew, hall⟩ :=
            visitList_ok_props svcs (visit svcs fuel)
              (visit_ok_props svcs fuel) _ _ _ heq
          have hnmem : name ∉ st2.visited := by
            intro hc
            rcases hnew name hc with hold | ⟨hnv, _⟩
            · exact hvtd hold
            · exact hnv (List.mem_cons_self _ _)
          refine ⟨List.nodup_cons.mpr ⟨hnmem, hnd2⟩, ⟨?_, htopo2⟩, ?_⟩
          · intro b hb
            exact hall b hb
          · show st2.order ++ [name] = (name :: st2.visited).reverse
            rw [List.reverse_cons, hord2]

end Proxer

namespace Proxer

/-- Number of known names not currently marked in-progress; bounds the
nesting depth of `visit`. -/
def freeCount (svcs : List (String × Service)) (st : VState) : Nat :=
  ((allNames svcs).filter (fun n => n ∉ st.visiting)).length

/-- `freeCount` only reads the `visiting` component. -/
theorem freeCount_congr (svcs : List (String × Service)) {st st' : VState}
    (h : st'.visiting = st.visiting) : freeCount svcs st' = freeCount svcs st := by
  unfold freeCount
  rw [h]

/-- Filtering with a stronger predicate gives a shorter list. -/
theorem length_filter_mono (l : List String) (p q : String → Bool)
    (h : ∀ x, q x = true → p x = true) :
    (l.filter q).length ≤ (l.filter p).length := by
  induction l with
  | nil => simp
  | cons c rest ih =>
    by_cases hq : q c = true
    · rw [List.filter_cons_of_pos hq, List.filter_cons_of_pos (h c hq)]
      simpa using ih
    · rw [List.filter_cons_of_neg (by simpa using hq)]
      by_cases hp : p c = true
      · rw [List.filter_cons_of_pos hp]
        exact le_trans ih (Nat.le_succ _)
      · rw [List.filter_cons_of_neg (by simpa using hp)]
        exact ih

/-- Adding an unmarked member of `univ` to the exclusion list strictly
shrinks the filtered list. -/
theorem length_filter_notmem_cons_lt (univ : List String) (vis : List String)
    (a : String) (ha : a ∈ univ) (hv : a ∉ vis) :
    (univ.filter (fun n => n ∉ a :: vis)).length <
      (univ.filter (fun n => n ∉ vis)).length := by
  induction univ with
  | nil => simp at ha
  | cons c rest ih =>
    by_cases hc : c = a
    · subst hc
      rw [List.filter_cons_of_neg (by simp),
        List.filter_cons_of_pos (by simpa using hv)]
      refine Nat.lt_succ_of_le (length_filter_mono rest _ _ ?_)
      intro x hx
      simp only [decide_eq_true_eq] at hx ⊢
      exact fun hxv => hx (List.mem_cons_of_mem _ hxv)
    · have ha2 : a ∈ rest := by
        rcases List.mem_cons.mp ha with h1 | h2
        · exact absurd h1.symm hc
        · exact h2
      by_cases hp : c ∈ vis
      · rw [List.filter_cons_of_neg (by simp [hp]),
          List.filter_cons_of_neg (by simp [hp])]
        exact ih ha2
      · rw [List.filter_cons_of_pos (by simp [hp, hc]),
          List.filter_cons_of_pos (by simp [hp])]
        exact Nat.succ_lt_succ (ih ha2)

/-- Marking a known, not-yet-marked name strictly decreases `freeCount`. -/
theorem freeCount_push_lt (svcs : List (String × Service)) (st : VState)
    (name : String) (hmem : name ∈ allNames svcs) (hnin : name ∉ st.visiting) :
    freeCount svcs { st with visiting := name :: st.visiting } <
      freeCount svcs st :=
  length_filter_notmem_cons_lt (allNames svcs) st.visiting name hmem hnin

/-- `freeCount` is bounded by the number of known names. -/
theorem freeCount_le (svcs : List (String × Service)) (st : VState) :
    freeCount svcs st ≤ (allNames svcs).length :=
  List.length_filter_le _ _

end Proxer

namespace Proxer

/-- Loop version of fuel sufficiency: if each call with remaining budget
settles (ok or cycle), the loop settles. -/
theorem visitList_no_ofl (svcs : List (String × Service))
    (f : String → VState → Except ResolverErr VState) (fuel : Nat)
    (hok : ∀ d st st', f d st = .ok st' → st'.visiting = st.visiting)
    (hf : ∀ d st, d ∈ allNames svcs → freeCount svcs st < fuel →
      (∃ st', f d st = .ok st') ∨ ∃ n, f d st = .error (.cycle n)) :
    ∀ ds st, (∀ d ∈ ds, d ∈ allNames svcs) → freeCount svcs st < fuel →
      (∃ st', visitList f ds st = .ok st') ∨
        ∃ n, visitList f ds st = .error (.cycle n) := by
  intro ds
  induction ds with
  | nil =>
    intro st _ _
    exact Or.inl ⟨st, rfl⟩
  | cons d ds ih =>
    intro st hds hlt
    rcases hf d st (hds d (List.mem_cons_self _ _)) hlt with ⟨st1, h1⟩ | ⟨n, h1⟩
    · have hfc : freeCount svcs st1 < fuel := by
        rw [freeCount_congr svcs (hok d st st1 h1)]
        exact hlt
      rcases ih st1 (fun x hx => hds x (List.mem_cons_of_mem _ hx)) hfc with
        ⟨st', h2⟩ | ⟨n, h2⟩
      · exact Or.inl ⟨st', by simp only [visitList]; rw [h1]; exact h2⟩
      · exact Or.inr ⟨n, by simp only [visitList]; rw [h1]; exact h2⟩
    · exact Or.inr ⟨n, by simp only [visitList]; rw [h1]⟩

/-- Fuel sufficiency: with more fuel than free names, `visit` never
reports `outOfFuel` — it either succeeds or finds a cycle. -/
theorem visit_no_ofl (svcs : List (String × Service)) :
    ∀ fuel name st, name ∈ allNames svcs → freeCount svcs st < fuel →
      (∃ st', visit svcs fuel name st = .ok st') ∨
        ∃ n, visit svcs fuel name st = .error (.cycle n) := by
  intro fuel
  induction fuel with
  | zero => intro name st _ hlt; exact absurd hlt (Nat.not_lt_zero _)
  | succ fuel ih =>
    intro name st hmem hlt
    by_cases hvtg : name ∈ st.visiting
    · exact Or.inr ⟨name, by simp only [visit]; rw [if_pos hvtg]⟩
    · by_cases hvtd : name ∈ st.visited
      · exact Or.inl ⟨st, by simp only [visit]; rw [if_neg hvtg, if_pos hvtd]⟩
      · have hfc : freeCount svcs { st with visiting := name :: st.visiting } < fuel :=
          Nat.lt_of_lt_of_le (freeCount_push_lt svcs st name hmem hvtg)
            (Nat.lt_succ_iff.mp hlt)
        rcases visitList_no_ofl svcs (visit svcs fuel) fuel
            (fun d s s' h => (visit_ok_props svcs fuel d s s' h).1) ih
            (lookupDeps svcs name) _ (lookupDeps_subset_allNames svcs name) hfc with
          ⟨st2, h2⟩ | ⟨n, h2⟩
        · refine Or.inl ⟨⟨st2.visiting.filter (fun x => x ≠ name),
            name :: st2.visited, st2.order ++ [name]⟩, ?_⟩
          simp only [visit]
          rw [if_neg hvtg, if_neg hvtd, h2]
        · refine Or.inr ⟨n, ?_⟩
          simp only [visit]
          rw [if_neg hvtg, if_neg hvtd, h2]

/-- The resolver as a whole always settles with the fuel it is given:
the `outOfFuel` branch of `getServiceDependencyOrder` is dead code. -/
theorem resolver_total (svcs : List (String × Service)) :
    (∃ st', visitList (visit svcs (resolverFuel svcs)) (serviceKeys svcs) {} = .ok st') ∨
      ∃ n, visitList (visit svcs (resolverFuel svcs)) (serviceKeys svcs) {} =
        .error (.cycle n) := by
  refine visitList_no_ofl svcs (visit svcs (resolverFuel svcs)) (resolverFuel svcs)
    (fun d s s' h => (visit_ok_props svcs _ d s s' h).1)
    (fun d s hd hlt => visit_no_ofl svcs _ d s hd hlt)
    (serviceKeys svcs) {} (serviceKeys_subset_allNames svcs) ?_
  exact Nat.lt_succ_of_le (freeCount_le svcs {})

end Proxer

namespace Proxer

/-- The dependency edge: `a` depends on `b`. -/
def DepEdge (svcs : List (String × Service)) (a b : String) : Prop :=
  b ∈ lookupDeps svcs a

/-- `a` transitively depends on `b` (at least one edge). -/
def Reaches (svcs : List (String × Service)) : String → String → Prop :=
  Relation.TransGen (DepEdge svcs)

/-- The dependency graph has no cycles (including no self-dependency). -/
def Acyclic (svcs : List (String × Service)) : Prop :=
  ∀ a, ¬ Reaches svcs a a

/-- The `visiting` stack read newest-first is a dependency chain: each
entry is a dependency of the entry below it. -/
def depChain (svcs : List (String × Service)) : List String → Prop
  | [] => True
  | [_] => True
  | a :: b :: rest => a ∈ lookupDeps svcs b ∧ depChain svcs (b :: rest)

/-- Every member of a dependency chain is reachable from the bottom,
i.e. the chain's head is reachable from each member along dependency
edges (possibly in zero steps). -/
theorem depChain_reaches_head (svcs : List (String × Service)) :
    ∀ (t : List String) (h a : String), depChain svcs (h :: t) → a ∈ h :: t →
      Relation.ReflTransGen (DepEdge svcs) a h := by
  intro t
  induction t with
  | nil =>
    intro h a _ hmem
    rcases List.mem_cons.mp hmem with rfl | hf
    · exact Relation.ReflTransGen.refl
    · simp at hf
  | cons b rest ih =>
    intro h a hchain hmem
    obtain ⟨hedge, hchain2⟩ : h ∈ lookupDeps svcs b ∧ depChain svcs (b :: rest) :=
      hchain
    rcases List.mem_cons.mp hmem with rfl | hmem2
    · exact Relation.ReflTransGen.refl
    · exact Relation.ReflTransGen.tail (ih b a hchain2 hmem2) hedge

/-- Master lemma: under acyclicity, a `visit` whose `visiting` stack is a
dependency chain and whose name extends that chain never fails. -/
theorem visit_acyclic_ok (svcs : List (String × Service))
    (hacy : Acyclic svcs) :
    ∀ fuel name st, name ∈ allNames svcs → freeCount svcs st < fuel →
      depChain svcs st.visiting →
      (st.visiting = [] ∨ ∃ h t, st.visiting = h :: t ∧ name ∈ lookupDeps svcs h) →
      ∃ st', visit svcs fuel name st = .ok st' := by
  intro fuel
  induction fuel with
  | zero => intro name st _ hlt _ _; exact absurd hlt (Nat.not_lt_zero _)
  | succ fuel ih =>
    intro name st hmem hlt hchain hcond
    by_cases hvtg : name ∈ st.visiting
    · exfalso
      rcases hcond with hnil | ⟨h, t, hht, hdep⟩
      · rw [hnil] at hvtg; simp at hvtg
      · rw [hht] at hvtg
        have hrtg : Relation.ReflTransGen (DepEdge svcs) name h :=
          depChain_reaches_head svcs t h name (hht ▸ hchain) hvtg
        exact hacy name (Relation.TransGen.tail' hrtg hdep)
    · by_cases hvtd : name ∈ st.visited
      · exact ⟨st, by simp only [visit]; rw [if_neg hvtg, if_pos hvtd]⟩
      · have hfc : freeCount svcs { st with visiting := name :: st.visiting } < fuel :=
          Nat.lt_of_lt_of_le (freeCount_push_lt svcs st name hmem hvtg)
            (Nat.lt_succ_iff.mp hlt)
        have hchain1 : depChain svcs (name :: st.visiting) := by
          rcases hcond with hnil | ⟨h, t, hht, hdep⟩
          · rw [hnil]; trivial
          · rw [hht]
            exact ⟨hdep, hht ▸ hchain⟩
        have hloop : ∀ ds st0, (∀ d ∈ ds, d ∈ allNames svcs) →
            (∀ d ∈ ds, d ∈ lookupDeps svcs name) →
            freeCount svcs st0 < fuel →
            st0.visiting = name :: st.visiting →
            ∃ st', visitList (visit svcs fuel) ds st0 = .ok st' ∧
              st'.visiting = name :: st.visiting := by
          intro ds
          induction ds with
          | nil =>
            intro st0 _ _ _ hviz
            exact ⟨st0, rfl, hviz⟩
          | cons d ds ihds =>
            intro st0 hall hdep hflt hviz
            obtain ⟨st1, h1⟩ := ih d st0 (hall d (List.mem_cons_self _ _)) hflt
              (hviz ▸ hchain1)
              (Or.inr ⟨name, st.visiting, hviz, hdep d (List.mem_cons_self _ _)⟩)
            have hviz1 : st1.visiting = name :: st.visiting :=
              (visit_ok_props svcs fuel d st0 st1 h1).1.trans hviz
            have hflt1 : freeCount svcs st1 < fuel := by
              rw [freeCount_congr svcs ((visit_ok_props svcs fuel d st0 st1 h1).1)]
              exact hflt
            obtain ⟨st', h2, hviz'⟩ := ihds st1
              (fun x hx => hall x (List.mem_cons_of_mem _ hx))
              (fun x hx => hdep x (List.mem_cons_of_mem _ hx)) hflt1 hviz1
            exact ⟨st', by simp only [visitList]; rw [h1]; exact h2, hviz'⟩
        obtain ⟨st2, h2, _⟩ := hloop (lookupDeps svcs name) _
          (lookupDeps_subset_allNames svcs name) (fun d hd => hd) hfc rfl
        refine ⟨⟨st2.visiting.filter (fun x => x ≠ name),
          name :: st2.visited, st2.order ++ [name]⟩, ?_⟩
        simp only [visit]
        rw [if_neg hvtg, if_neg hvtd, h2]

end Proxer

namespace Proxer

/-- Position of the first occurrence (length if absent). -/
def idxOf : List String → String → Nat
  | [], _ => 0
  | a :: t, x => if a = x then 0 else idxOf t x + 1

/-- In a duplicate-free topological stack, dependency edges increase the
position strictly. -/
theorem topoStack_idx_lt (svcs : List (String × Service)) :
    ∀ (l : List String), topoStack svcs l → l.Nodup →
      ∀ x y, x ∈ l → DepEdge svcs x y → y ∈ l ∧ idxOf l x < idxOf l y := by
  intro l
  induction l with
  | nil => intro _ _ x y hx _; simp at hx
  | cons c rest ih =>
    intro htopo hnd x y hx hedge
    obtain ⟨hdeps, htopo2⟩ : (∀ b ∈ lookupDeps svcs c, b ∈ rest) ∧
      topoStack svcs rest := htopo
    have hnd2 := List.nodup_cons.mp hnd
    rcases List.mem_cons.mp hx with rfl | hx2
    · have hy : y ∈ rest := hdeps y hedge
      have hyc : ¬ x = y := fun hc => hnd2.1 (hc ▸ hy)
      refine ⟨List.mem_cons_of_mem _ hy, ?_⟩
      simp only [idxOf]
      rw [if_neg hyc]
      simp
    · obtain ⟨hy, hlt⟩ := ih htopo2 hnd2.2 x y hx2 hedge
      have hxc : ¬ c = x := fun hc => hnd2.1 (hc ▸ hx2)
      have hyc : ¬ c = y := fun hc => hnd2.1 (hc ▸ hy)
      refine ⟨List.mem_cons_of_mem _ hy, ?_⟩
      simp only [idxOf]
      rw [if_neg hxc, if_neg hyc]
      exact Nat.succ_lt_succ hlt

/-- Transitive dependency also increases the position. -/
theorem topoStack_idx_lt_trans (svcs : List (String × Service))
    (l : List String) (htopo : topoStack svcs l) (hnd : l.Nodup)
    {x y : String} (hr : Reaches svcs x y) (hx : x ∈ l) :
    y ∈ l ∧ idxOf l x < idxOf l y := by
  induction hr with
  | single h => exact topoStack_idx_lt svcs l htopo hnd _ _ hx h
  | tail _ hbc ih =>
    obtain ⟨hb, hlt⟩ := ih
    obtain ⟨hc, hlt2⟩ := topoStack_idx_lt svcs l htopo hnd _ _ hb hbc
    exact ⟨hc, Nat.lt_trans hlt hlt2⟩

/-- A name on a dependency cycle never occurs in a duplicate-free
topological completion stack. -/
theorem topoStack_no_cycle (svcs : List (String × Service))
    (l : List String) (htopo : topoStack svcs l) (hnd : l.Nodup)
    {a : String} (hcyc : Reaches svcs a a) : a ∉ l := by
  intro ha
  obtain ⟨_, hlt⟩ := topoStack_idx_lt_trans svcs l htopo hnd hcyc ha
  exact Nat.lt_irrefl _ hlt

/-- Splitting a topological stack at an element bounds its dependencies
to the suffix. -/
theorem topoStack_split (svcs : List (String × Service)) :
    ∀ (u : List String) (n : String) (w : List String),
      topoStack svcs (u ++ n :: w) → ∀ b ∈ lookupDeps svcs n, b ∈ w := by
  intro u
  induction u with
  | nil =>
    intro n w htopo b hb
    exact htopo.1 b hb
  | cons c u ih =>
    intro n w htopo b hb
    exact ih n w htopo.2 b hb

/-- A transitive dependency starts with one edge. -/
theorem reaches_first_edge (svcs : List (String × Service)) {x y : String}
    (h : Reaches svcs x y) : ∃ z, DepEdge svcs x z := by
  induction h with
  | single h => exact ⟨_, h⟩
  | tail _ _ ih => exact ih

/-- A name with an outgoing dependency edge is a key of the map. -/
theorem depEdge_source_key (svcs : List (String × Service)) {x z : String}
    (h : DepEdge svcs x z) : x ∈ serviceKeys svcs := by
  unfold DepEdge lookupDeps at h
  cases hfind : findService svcs x with
  | none => rw [hfind] at h; simp at h
  | some s =>
    exact List.mem_map.mpr ⟨(x, s), findService_mem hfind, rfl⟩

end Proxer

namespace Proxer

/-- **C1.** For every services mapping in which every `dependsOn` entry
names an existing service and the dependency graph is acyclic,
`GetServiceDependencyOrder` succeeds and returns an order in which every
service name appears exactly once and, for every service `a` with `b` in
`a`'s `dependsOn`, `b` appears (strictly) before `a`. -/
theorem c1_resolver_topological_order (svcs : List (String × Service))
    (hnd : (serviceKeys svcs).Nodup)
    (hdef : ∀ p ∈ svcs, ∀ d ∈ p.2.dependsOn, d ∈ serviceKeys svcs)
    (hacy : Acyclic svcs) :
    ∃ order, getServiceDependencyOrder svcs = .ok order ∧
      (∀ k ∈ serviceKeys svcs, order.count k = 1) ∧
      (∀ x ∈ order, x ∈ serviceKeys svcs) ∧
      ∀ p ∈ svcs, ∀ b ∈ p.2.dependsOn,
        ∃ l1 l2, order = l1 ++ p.1 :: l2 ∧ b ∈ l1 := by
  have htop : ∀ ks st, (∀ k ∈ ks, k ∈ allNames svcs) →
      freeCount svcs st < resolverFuel svcs → st.visiting = [] →
      ∃ st', visitList (visit svcs (resolverFuel svcs)) ks st = .ok st' ∧
        st'.visiting = [] := by
    intro ks
    induction ks with
    | nil => intro st _ _ hviz; exact ⟨st, rfl, hviz⟩
    | cons k ks ih =>
      intro st hall hlt hviz
      obtain ⟨st1, h1⟩ := visit_acyclic_ok svcs hacy (resolverFuel svcs) k st
        (hall k (List.mem_cons_self _ _)) hlt (by rw [hviz]; trivial)
        (Or.inl hviz)
      have hviz1 : st1.visiting = [] :=
        (visit_ok_props svcs _ k st st1 h1).1.trans hviz
      have hlt1 : freeCount svcs st1 < resolverFuel svcs := by
        rw [freeCount_congr svcs ((visit_ok_props svcs _ k st st1 h1).1)]
        exact hlt
      obtain ⟨st', h2, hviz'⟩ := ih st1
        (fun x hx => hall x (List.mem_cons_of_mem _ hx)) hlt1 hviz1
      exact ⟨st', by simp only [visitList]; rw [h1]; exact h2, hviz'⟩
  obtain ⟨stf, hrun, _⟩ := htop (serviceKeys svcs) {}
    (serviceKeys_subset_allNames svcs)
    (Nat.lt_succ_of_le (freeCount_le svcs {})) rfl
  have hinv : Inv svcs stf :=
    visitList_inv svcs (visit svcs (resolverFuel svcs))
      (visit_inv svcs (resolverFuel svcs)) _ _ _ hrun
      ⟨List.nodup_nil, trivial, rfl⟩
  obtain ⟨hndv, htopo, hord⟩ := hinv
  obtain ⟨_, _, hnew, hall⟩ :=
    visitList_ok_props svcs (visit svcs (resolverFuel svcs))
      (visit_ok_props svcs (resolverFuel svcs)) _ _ _ hrun
  have hsub : ∀ x ∈ stf.visited, x ∈ serviceKeys svcs := by
    intro x hx
    rcases hnew x hx with hfalse | ⟨_, hsrc⟩
    · simp at hfalse
    · rcases hsrc with hk | ⟨z, hz⟩
      · exact hk
      · exact lookupDeps_subset_keys hdef z x hz
  refine ⟨stf.order, ?_, ?_, ?_, ?_⟩
  · unfold getServiceDependencyOrder
    rw [hrun]
  · intro k hk
    rw [hord, List.count_reverse]
    exact List.count_eq_one_of_mem hndv (hall k hk)
  · intro x hx
    rw [hord, List.mem_reverse] at hx
    exact hsub x hx
  · rintro ⟨n, s⟩ hp b hb
    have hn : n ∈ stf.visited := hall n (List.mem_map.mpr ⟨(n, s), hp, rfl⟩)
    obtain ⟨u, w, hsplit⟩ := List.append_of_mem hn
    have hdeps : ∀ d ∈ lookupDeps svcs n, d ∈ w := by
      refine topoStack_split svcs u n w ?_
      rw [← hsplit]
      exact htopo
    have hbw : b ∈ w := by
      apply hdeps
      unfold lookupDeps
      rw [findService_of_mem hnd hp]
      exact hb
    refine ⟨w.reverse, u.reverse, ?_, List.mem_reverse.mpr hbw⟩
    rw [hord, hsplit]
    simp [List.reverse_append]

end Proxer

namespace Proxer

/-- **C2.** For every services mapping whose dependency graph contains a
cycle (including a self-dependency), `GetServiceDependencyOrder` returns
the cycle error naming a service at the point of detection, and never
returns a (partial) ordering. -/
theorem c2_resolver_cycle_error (svcs : List (String × Service))
    (hcyc : ∃ a, Reaches svcs a a) :
    ∃ n, getServiceDependencyOrder svcs = .error (cycleMsg n) := by
  obtain ⟨a, hra⟩ := hcyc
  obtain ⟨z, hedge⟩ := reaches_first_edge svcs hra
  have hkey : a ∈ serviceKeys svcs := depEdge_source_key svcs hedge
  have hfc : ∀ st : VState, freeCount svcs st < resolverFuel svcs :=
    fun st => Nat.lt_succ_of_le (freeCount_le svcs st)
  have hloop : ∀ ks st, a ∈ ks → Inv svcs st →
      (∀ k ∈ ks, k ∈ allNames svcs) →
      ∃ n, visitList (visit svcs (resolverFuel svcs)) ks st =
        .error (.cycle n) := by
    intro ks
    induction ks with
    | nil => intro st h; simp at h
    | cons k ks ih =>
      intro st hmem hinv hall
      rcases visit_no_ofl svcs (resolverFuel svcs) k st
          (hall k (List.mem_cons_self _ _)) (hfc st) with ⟨st1, h1⟩ | ⟨n, h1⟩
      · have hinv1 : Inv svcs st1 :=
          visit_inv svcs (resolverFuel svcs) k st st1 h1 hinv
        rcases List.mem_cons.mp hmem with rfl | hmem2
        · exfalso
          have hav : a ∈ st1.visited :=
            (visit_ok_props svcs (resolverFuel svcs) a st st1 h1).2.2.2
          exact topoStack_no_cycle svcs st1.visited hinv1.2.1 hinv1.1 hra hav
        · obtain ⟨n, h2⟩ := ih st1 hmem2 hinv1
            (fun x hx => hall x (List.mem_cons_of_mem _ hx))
          exact ⟨n, by simp only [visitList]; rw [h1]; exact h2⟩
      · exact ⟨n, by simp only [visitList]; rw [h1]⟩
  obtain ⟨n, hn⟩ := hloop (serviceKeys svcs) {} hkey
    ⟨List.nodup_nil, trivial, rfl⟩ (serviceKeys_subset_allNames svcs)
  refine ⟨n, ?_⟩
  unfold getServiceDependencyOrder
  rw [hn]

end Proxer

namespace Proxer

/-- The spec §8 scenario stack `{web: {dependsOn: [db]}, db: {}}`. -/
def stackDbWeb : List (String × Service) :=
  [("web", { template := "t", dependsOn := ["db"] }),
   ("db", { template := "t" })]

/-- The only dependency edge of `stackDbWeb` is `web → db`. -/
theorem stackDbWeb_edge {x y : String} (h : DepEdge stackDbWeb x y) :
    x = "web" ∧ y = "db" := by
  by_cases hx : x = "web"
  · subst hx
    have hl : lookupDeps stackDbWeb "web" = ["db"] := rfl
    unfold DepEdge at h
    rw [hl] at h
    simp at h
    exact ⟨rfl, h⟩
  · by_cases hx2 : x = "db"
    · subst hx2
      have hl : lookupDeps stackDbWeb "db" = [] := rfl
      unfold DepEdge at h
      rw [hl] at h
      simp at h
    · exfalso
      have hl : lookupDeps stackDbWeb x = [] := by
        unfold lookupDeps stackDbWeb
        simp only [findService]
        rw [if_neg (fun hc => hx hc.symm), if_neg (fun hc => hx2 hc.symm)]
      unfold DepEdge at h
      rw [hl] at h
      simp at h

/-- `stackDbWeb` is acyclic. -/
theorem stackDbWeb_acyclic : Acyclic stackDbWeb := by
  intro a hr
  have hchar : ∀ x y, Relation.TransGen (DepEdge stackDbWeb) x y →
      x = "web" ∧ y = "db" := by
    intro x y h
    induction h with
    | single h => exact stackDbWeb_edge h
    | tail _ h2 ih =>
      obtain ⟨hb, _⟩ := stackDbWeb_edge h2
      exact absurd (ih.2.symm.trans hb) (by decide)
  obtain ⟨h1, h2⟩ := hchar a a hr
  exact absurd (h1.symm.trans h2) (by decide)

/-- Witness for C1 at the spec §8 scenario stack. -/
theorem c1_witness :
    ∃ order, getServiceDependencyOrder stackDbWeb = .ok order ∧
      (∀ k ∈ serviceKeys stackDbWeb, order.count k = 1) ∧
      (∀ x ∈ order, x ∈ serviceKeys stackDbWeb) ∧
      ∀ p ∈ stackDbWeb, ∀ b ∈ p.2.dependsOn,
        ∃ l1 l2, order = l1 ++ p.1 :: l2 ∧ b ∈ l1 :=
  c1_resolver_topological_order stackDbWeb (by decide) (by decide)
    stackDbWeb_acyclic

/-- The spec §8 scenario stack `{web: {dependsOn: [api]}, api: {dependsOn: [web]}}`. -/
def stackWebApi : List (String × Service) :=
  [("web", { template := "t", dependsOn := ["api"] }),
   ("api", { template := "t", dependsOn := ["web"] })]

/-- Witness for C2 at the two-service cyclic stack. -/
theorem c2_witness :
    ∃ n, getServiceDependencyOrder stackWebApi = .error (cycleMsg n) :=
  c2_resolver_cycle_error stackWebApi
    ⟨"web",
      Relation.TransGen.tail
        (Relation.TransGen.single
          (show "api" ∈ lookupDeps stackWebApi "web" by decide))
        (show "web" ∈ lookupDeps stackWebApi "api" by decide)⟩

end Proxer

namespace Proxer

/-! ## `Orchestrator.Down` shutdown order (runner, lines 923–935)

`Down` resolves the same order as `Up` and then reverses it in place:
`for i := len(order)/2 - 1; i >= 0; i-- { order[i], order[opp] = order[opp], order[i] }`
with `opp = len(order)-1-i`.  The loop is embedded literally and proved
equal to `List.reverse`. -/

/-- The simultaneous swap `l[i], l[j] = l[j], l[i]` (both reads happen
before the writes). -/
def swapAt (l : List String) (i j : Nat) : List String :=
  (l.set i (l.getD j "")).set j (l.getD i "")

/-- `swapLoopGo len k l` runs the loop body for `i = k-1, k-2, …, 0` —
exactly the Go loop when started at `k = len/2`. -/
def swapLoopGo (len : Nat) : Nat → List String → List String
  | 0, l => l
  | k + 1, l => swapLoopGo len k (swapAt l k (len - 1 - k))

/-- The in-place reversal loop of `Down`. -/
def reverseBySwap (l : List String) : List String :=
  swapLoopGo l.length (l.length / 2) l

/-- Pointwise description of one swap. -/
theorem swapAt_getElem? (l : List String) (i j : Nat) (hi : i < l.length)
    (hj : j < l.length) (hij : i ≠ j) :
    ∀ x, (swapAt l i j)[x]? =
      if x = i then l[j]? else if x = j then l[i]? else l[x]? := by
  intro x
  unfold swapAt
  by_cases hxj : x = j
  · subst hxj
    rw [if_neg (fun hc => hij hc.symm), if_pos rfl]
    rw [List.getElem?_set_eq_of_lt _ (by simpa using hj)]
    rw [List.getD_eq_getElem l "" hi, List.getElem?_eq_getElem hi]
  · rw [List.getElem?_set_ne (fun hc => hxj hc.symm)]
    by_cases hxi : x = i
    · subst hxi
      rw [if_pos rfl, List.getElem?_set_eq_of_lt _ hi]
      rw [List.getD_eq_getElem l "" hj, List.getElem?_eq_getElem hj]
    · rw [if_neg hxi, if_neg hxj, List.getElem?_set_ne (fun hc => hxi hc.symm)]

/-- Pointwise description of the partially executed loop: positions in
the already-processed outer bands hold the mirrored element. -/
theorem swapLoopGo_getElem? (len : Nat) :
    ∀ (k : Nat) (l : List String), l.length = len → 2 * k ≤ len → ∀ j : Nat,
      (swapLoopGo len k l)[j]? =
        if j < k ∨ (j < len ∧ len - 1 - j < k) then l[len - 1 - j]?
        else l[j]? := by
  intro k
  induction k with
  | zero =>
    intro l hlen _ j
    simp [swapLoopGo]
  | succ k ih =>
    intro l hlen hk j
    have hm := swapAt_getElem? l k (len - 1 - k) (by omega) (by omega) (by omega)
    have hmlen : (swapAt l k (len - 1 - k)).length = len := by
      simp [swapAt, List.length_set, hlen]
    have hrec := ih (swapAt l k (len - 1 - k)) hmlen (by omega) j
    show (swapLoopGo len k (swapAt l k (len - 1 - k)))[j]? = _
    rw [hrec, hm (len - 1 - j), hm j]
    split_ifs <;>
      first
        | rfl
        | omega
        | (congr 1; omega)

/-- The Go swap loop is an exact reversal. -/
theorem reverseBySwap_eq_reverse (l : List String) :
    reverseBySwap l = l.reverse := by
  apply List.ext_getElem?
  intro j
  have h := swapLoopGo_getElem? l.length (l.length / 2) l rfl (by omega) j
  unfold reverseBySwap
  rw [h]
  by_cases hj : j < l.length
  · rw [List.getElem?_reverse hj]
    split_ifs with hc
    · rfl
    · congr 1
      omega
  · rw [if_neg (by omega), List.getElem?_eq_none (by omega),
      List.getElem?_eq_none (by simp; omega)]

/-- The shutdown-order computation of `Orchestrator.Down` (runner lines
923–935): resolve the dependency order exactly as `Up` does, then reverse
it in place. -/
def downServiceOrder (svcs : List (String × Service)) :
    Except String (List String) :=
  match getServiceDependencyOrder svcs with
  | .error e => .error e
  | .ok order => .ok (reverseBySwap order)

/-- **C9.** For every stack, the shutdown order used by `Down` is exactly
the startup order used by `Up` reversed, element for element. -/
theorem c9_down_order_is_reverse (svcs : List (String × Service))
    (order : List String)
    (h : getServiceDependencyOrder svcs = .ok order) :
    downServiceOrder svcs = .ok order.reverse := by
  unfold downServiceOrder
  rw [h]
  show Except.ok (reverseBySwap order) = Except.ok order.reverse
  rw [reverseBySwap_eq_reverse]

/-- Witness for C9 at the spec §8 scenario stack. -/
theorem c9_witness :
    getServiceDependencyOrder stackDbWeb = .ok ["db", "web"] ∧
      downServiceOrder stackDbWeb = .ok (["db", "web"].reverse) :=
  ⟨rfl, c9_down_order_is_reverse stackDbWeb ["db", "web"] rfl⟩

end Proxer

namespace Proxer

/-! ## Manifest validation (`lxcfile.go` 149–201, `stack.go` 169–289)

Validation returns `none` for success and `some msg` for the Go error
message (`'` is the ASCII apostrophe of the Go format strings). -/

/-- The setup-step loop of `LXCfile.Validate` (lxcfile.go 160–173),
carrying the 0-based index `i` of the current step. -/
def validateSetupStepsFrom (i : Nat) : List SetupStep → Option String
  | [] => none
  | step :: rest =>
    if step.run = "" ∧ step.copy = none ∧ step.env = none ∧ step.workDir = "" then
      some ("setup step " ++ toString (i + 1) ++
        " must have at least one action (run, copy, env, or workdir)")
    else
      match step.copy with
      | some c =>
        if c.source = "" then
          some ("setup step " ++ toString (i + 1) ++ ": copy source is required")
        else if c.dest = "" then
          some ("setup step " ++ toString (i + 1) ++ ": copy dest is required")
        else validateSetupStepsFrom (i + 1) rest
      | none => validateSetupStepsFrom (i + 1) rest

/-- The mount loop of `LXCfile.Validate` (lxcfile.go 176–183). -/
def validateMountsFrom (i : Nat) : List Mount → Option String
  | [] => none
  | m :: rest =>
    if m.target = "" then
      some ("mount " ++ toString (i + 1) ++ ": target is required")
    else if m.mountType = "bind" ∧ m.source = "" then
      some ("mount " ++ toString (i + 1) ++ ": source is required for bind mount")
    else validateMountsFrom (i + 1) rest

/-- The port loop of `LXCfile.Validate` (lxcfile.go 186–193). -/
def validatePortsFrom (i : Nat) : List Port → Option String
  | [] => none
  | p :: rest =>
    if p.container ≤ 0 ∨ p.container > 65535 then
      some ("port " ++ toString (i + 1) ++ ": container port must be between 1 and 65535")
    else if p.host ≠ 0 ∧ (p.host ≤ 0 ∨ p.host > 65535) then
      some ("port " ++ toString (i + 1) ++ ": host port must be between 1 and 65535")
    else validatePortsFrom (i + 1) rest

/-- `LXCfile.Validate` (lxcfile.go 149–201). -/
def LXCfile.validate (l : LXCfile) : Option String :=
  if l.fromBase = "" then
    some "'from' field is required"
  else if l.setup.length = 0 then
    some "'setup' field is required and must contain at least one step"
  else
    match validateSetupStepsFrom 0 l.setup with
    | some e => some e
    | none =>
      match validateMountsFrom 0 l.mounts with
      | some e => some e
      | none =>
        match validatePortsFrom 0 l.ports with
        | some e => some e
        | none =>
          match l.health with
          | some h =>
            if h.test = "" then some "health check test command is required"
            else none
          | none => none

/-- Models `strings.Contains("ABCDEFGHIJKLMNOPQRSTUVWXYZ", s)` for the
single-character strings admitted by the guard in `splitVolume`. -/
def containsUpperAlpha (s : String) : Bool :=
  "ABCDEFGHIJKLMNOPQRSTUVWXYZ".toList.any (fun c => s = String.singleton c)

/-- `splitVolume` (stack.go 276–289): split on `:` and re-join a Windows
drive letter. -/
def splitVolume (volume : String) : List String :=
  let parts := volume.splitOn ":"
  if parts.length ≥ 3 ∧ (parts.headD "").length = 1 ∧
      containsUpperAlpha (parts.headD "").toUpper then
    ((parts.headD "") ++ ":" ++ (parts[1]?.getD "")) :: parts.drop 2
  else parts

/-- `parseVolumeName` (stack.go 263–273). -/
def parseVolumeName (volume : String) : String :=
  if (splitVolume volume).length ≥ 2 then (splitVolume volume).headD "" else ""

end Proxer

namespace Proxer

/-- The valid restart policies of `validateService` (stack.go 241). -/
def validRestartPolicies : List String := ["no", "always", "on-failure", "unless-stopped"]

/-- The `depends_on` loop of `validateService` (stack.go 232–237). -/
def checkDeps (svcs : List (String × Service)) : List String → Option String
  | [] => none
  | dep :: rest =>
    if (findService svcs dep).isSome then checkDeps svcs rest
    else some ("depends_on references undefined service '" ++ dep ++ "'")

/-- The condition of stack.go 226–229: the normalised build
configuration is nil or has an empty context. -/
def buildContextMissing (service : Service) : Bool :=
  match service.getBuildConfig with
  | none => true
  | some bc => bc.context == ""

/-- `LXCStack.validateService` (stack.go 213–260). -/
def validateService (svcs : List (String × Service)) (service : Service) :
    Option String :=
  if ¬ service.hasBuild ∧ service.template = "" then
    some "must specify either 'build' or 'template'"
  else if service.hasBuild ∧ service.template ≠ "" then
    some "cannot specify both 'build' and 'template'"
  else if service.hasBuild ∧ buildContextMissing service then
    some "build context is required"
  else
    match checkDeps svcs service.dependsOn with
    | some e => some e
    | none =>
      if service.restart ≠ "" ∧ ¬ validRestartPolicies.contains service.restart then
        some ("invalid restart policy '" ++ service.restart ++
          "', must be one of: [no always on-failure unless-stopped]")
      else if service.scale < 0 then
        some "scale cannot be negative"
      else none

/-- The per-service loop of `LXCStack.Validate` (stack.go 180–184),
wrapping each error with the service name. -/
def validateServices (svcs : List (String × Service)) :
    List (String × Service) → Option String
  | [] => none
  | (name, service) :: rest =>
    match validateService svcs service with
    | some e => some ("service '" ++ name ++ "': " ++ e)
    | none => validateServices svcs rest

/-- The inner network-reference loop (stack.go 188–192). -/
def checkNetworkList (s : LXCStack) (serviceName : String) :
    List String → Option String
  | [] => none
  | n :: rest =>
    if ¬ s.networks.contains n ∧ n ≠ "default" then
      some ("service '" ++ serviceName ++ "' references undefined network '" ++
        n ++ "'")
    else checkNetworkList s serviceName rest

/-- The network-reference loop over services (stack.go 187–193). -/
def checkNetworkRefs (s : LXCStack) : List (String × Service) → Option String
  | [] => none
  | (name, svc) :: rest =>
    match checkNetworkList s name svc.networks with
    | some e => some e
    | none => checkNetworkRefs s rest

/-- The inner volume-reference loop (stack.go 197–207). -/
def checkVolumeList (s : LXCStack) (serviceName : String) :
    List String → Option String
  | [] => none
  | v :: rest =>
    let volumeName := parseVolumeName v
    if volumeName ≠ "" ∧ ¬ s.volumes.contains volumeName ∧
        volumeName.front ≠ '/' then
      some ("service '" ++ serviceName ++ "' references undefined volume '" ++
        volumeName ++ "'")
    else checkVolumeList s serviceName rest

/-- The volume-reference loop over services (stack.go 196–208). -/
def checkVolumeRefs (s : LXCStack) : List (String × Service) → Option String
  | [] => none
  | (name, svc) :: rest =>
    match checkVolumeList s name svc.volumes with
    | some e => some e
    | none => checkVolumeRefs s rest

/-- `LXCStack.Validate` (stack.go 169–211). -/
def LXCStack.validate (s : LXCStack) : Option String :=
  if s.version = "" then
    some "'version' field is required"
  else if s.services.length = 0 then
    some "'services' field is required and must contain at least one service"
  else
    match validateServices s.services s.services with
    | some e => some e
    | none =>
      match checkNetworkRefs s s.services with
      | some e => some e
      | none => checkVolumeRefs s s.services

/-- The spec §8 scenario `{a: {dependsOn: [missing]}}` as the services
mapping and as a whole stack. -/
def stackMissingDep : List (String × Service) :=
  [("a", { template := "t", dependsOn := ["missing"] })]

/-- The same services mapping wrapped in a complete stack manifest. -/
def stackMissingDepFull : LXCStack :=
  { version := "1.0", services := stackMissingDep }

/-- **C10.** `GetServiceDependencyOrder` itself performs no
referential-integrity check: on a mapping where service `a` depends on
the undefined name `missing`, it succeeds and the order contains
`missing` placed before `a`; the rejection of undefined dependency
references happens in `LXCStack.Validate` (via `validateService`). -/
theorem c10_resolver_no_referential_integrity :
    getServiceDependencyOrder stackMissingDep = .ok ["missing", "a"] ∧
      LXCStack.validate stackMissingDepFull =
        some "service 'a': depends_on references undefined service 'missing'" :=
  ⟨rfl, rfl⟩

end Proxer

namespace Proxer

/-! ## Build-step execution (`pkg/builder`, builder.go 236–339)

Each `pct` invocation inside a step is decided by a `StepOracle`.  The
`chown`/`chmod` calls of a copy step are absent from the oracle because
their outcomes never influence the step result (builder.go 303–315: a
failure is logged as a warning only).  `filepath.Dir` is Go standard
library, treated as a collaborator supplied by the oracle. -/
structure StepOracle where
  runErr : String → Option String := fun _ => none
  sourceExists : String → Bool := fun _ => true
  dirOf : String → String := fun _ => "/tmp"
  mkdirErr : String → Option String := fun _ => none
  pushErr : Option String := none
  envErr : String → Option String := fun _ => none

/-- `Builder.expandBuildArgs` (builder.go 439–447): textual substitution
of both `$\x7bKEY\x7d` and bare `$KEY` forms, in map iteration order. -/
def expandBuildArgs (command : String) (buildArgs : List (String × String)) :
    String :=
  buildArgs.foldl
    (fun result kv =>
      (result.replace ("$\x7b" ++ kv.1 ++ "\x7d") kv.2).replace
        ("$" ++ kv.1) kv.2)
    command

/-- `Builder.executeRunStep` (builder.go 253–272). -/
def executeRunStep (o : StepOracle) (dryRun : Bool) (command : String)
    (buildArgs : List (String × String)) : Except String Unit :=
  if dryRun then .ok ()
  else
    match o.runErr (expandBuildArgs command buildArgs) with
    | some e => .error e
    | none => .ok ()

/-- `Builder.executeCopyStep` (builder.go 275–318): stat the source,
create the destination directory unless it is `/` or `.`, push, then
best-effort `chown`/`chmod` (which cannot fail the step). -/
def executeCopyStep (o : StepOracle) (dryRun : Bool) (c : CopyStep) :
    Except String Unit :=
  if dryRun then .ok ()
  else if ¬ o.sourceExists c.source then
    .error ("source file/directory does not exist: " ++ c.source)
  else
    match
      (if o.dirOf c.dest ≠ "/" ∧ o.dirOf c.dest ≠ "." then
        o.mkdirErr (o.dirOf c.dest)
      else none) with
    | some e => .error ("failed to create destination directory: " ++ e)
    | none =>
      match o.pushErr with
      | some e => .error ("failed to copy files: " ++ e)
      | none => .ok ()

/-- The per-variable loop of `executeEnvStep`, keyed by the `KEY=VALUE`
line appended to `/etc/environment`. -/
def envLoop (o : StepOracle) : List (String × String) → Except String Unit
  | [] => .ok ()
  | (k, v) :: rest =>
    match o.envErr (k ++ "=" ++ v) with
    | some e => .error ("failed to set environment variable " ++ k ++ ": " ++ e)
    | none => envLoop o rest

/-- `Builder.executeEnvStep` (builder.go 321–339). -/
def executeEnvStep (o : StepOracle) (dryRun : Bool)
    (env : List (String × String)) : Except String Unit :=
  if dryRun then .ok () else envLoop o env

/-- `Builder.executeSetupStep` (builder.go 236–250): dispatch on the
first populated action — `run`, then `copy`, then `env`; a `workdir`-only
step falls through to the error branch. -/
def executeSetupStep (o : StepOracle) (dryRun : Bool) (step : SetupStep)
    (buildArgs : List (String × String)) : Except String Unit :=
  if step.run ≠ "" then executeRunStep o dryRun step.run buildArgs
  else
    match step.copy with
    | some c => executeCopyStep o dryRun c
    | none =>
      match step.env with
      | some env => executeEnvStep o dryRun env
      | none => .error "setup step has no actions"

/-- A manifest whose only setup step is a `workdir` action. -/
def workdirOnlyFile : LXCfile :=
  { fromBase := "ubuntu-22.04", setup := [{ workDir := "/opt/app" }] }

/-- **C3 (code bug).** The build manifest `{from: ubuntu-22.04, setup:
[{workdir: /opt/app}]}` passes `LXCfile.Validate` — whose own message
names `workdir` as an action — yet its only step reaches the runtime
"setup step has no actions" branch of `executeSetupStep` under every
oracle, because the executor dispatches only on `run`, `copy`, `env`. -/
theorem c3_workdir_only_step_reaches_runtime_error :
    LXCfile.validate workdirOnlyFile = none ∧
      ∀ (o : StepOracle) (dryRun : Bool) (buildArgs : List (String × String)),
        executeSetupStep o dryRun { workDir := "/opt/app" } buildArgs =
          .error "setup step has no actions" :=
  ⟨rfl, fun _ _ _ => rfl⟩

end Proxer

namespace Proxer

/-! ## The build pipeline (`Builder.BuildTemplate`, builder.go 69–157)

Each event marks that the corresponding builder function was invoked at
that point of the pipeline (in dry-run mode the function skips its `pct`
call but still runs).  The Go `defer`red cleanup guarded by
`shouldCleanup` is translated explicitly: every return after container
creation and before a successful export appends the cleanup of
`cleanupTempContainer` (best-effort stop whose result is discarded, then
destroy whose failure is logged, not returned). -/

/-- One pipeline phase of `BuildTemplate`. -/
inductive BuildEvent where
  | create
  | start
  | waitReady
  | setupStep (i : Nat)
  | applyConfig
  | cleanupStep (i : Nat)
  | stop
  | exportTemplate
  | stopCleanup
  | destroy
  deriving Repr, DecidableEq

/-- The oracle for one `BuildTemplate` run: the wall clock read by
`generateContainerID` and the outcome of every external invocation. -/
structure BuildEnv where
  dryRun : Bool := false
  nowUnix : Int := 0
  createErr : Option String := none
  startErr : Option String := none
  waitErr : Option String := none
  setupOracle : Nat → StepOracle := fun _ => {}
  applyErr : Option String := none
  cleanupOracle : Nat → StepOracle := fun _ => {}
  stopErr : Option String := none
  exportErr : Option String := none
  destroyErr : Option String := none

/-- `builder.BuildResult` (builder.go 37–43); `BuildDuration` is wall
time and not modelled. -/
structure GoBuildResult where
  templateName : String := ""
  templatePath : String := ""
  containerID : Int := 0
  executedSteps : List String := []
  deriving Repr, DecidableEq

/-- `Builder.generateContainerID` (builder.go 160–164). -/
def generateContainerID (env : BuildEnv) : Int :=
  env.nowUnix % 100000 + 10000

/-- `Builder.createTempContainer` (builder.go 167–190). -/
def createTempContainer (env : BuildEnv) : Option String :=
  if env.dryRun then none else env.createErr

/-- `Builder.startContainer` (builder.go 193–201). -/
def startContainerB (env : BuildEnv) : Option String :=
  if env.dryRun then none else env.startErr

/-- `Builder.waitForContainer` (builder.go 215–233): the bounded
one-second readiness poll; the oracle decides whether the 60-attempt
budget sufficed. -/
def waitForContainer (env : BuildEnv) : Option String :=
  if env.dryRun then none else env.waitErr

/-- `Builder.applyContainerConfig`'s argument list (builder.go 349–380). -/
def applyConfigArgs (l : LXCfile) : List String :=
  (match l.resources with
   | some r =>
     (if r.cores > 0 then ["-cores", toString r.cores] else []) ++
       (if r.memory > 0 then ["-memory", toString r.memory] else []) ++
       (if r.swap > 0 then ["-swap", toString r.swap] else [])
   | none => []) ++
  (match l.features with
   | some f =>
     let features :=
       (if f.nesting then ["nesting=1"] else []) ++
         (if f.keyctl then ["keyctl=1"] else []) ++
         (if f.fuse then ["fuse=1"] else [])
     if features.length > 0 then ["-features", String.intercalate "," features]
     else []
   | none => [])

/-- `Builder.applyContainerConfig` (builder.go 342–389): one `pct set`
invocation, skipped entirely when there is nothing to apply. -/
def applyContainerConfig (env : BuildEnv) (l : LXCfile) : Option String :=
  if env.dryRun then none
  else if (applyConfigArgs l).length > 0 then env.applyErr
  else none

/-- `Builder.stopContainer` (builder.go 204–212). -/
def stopContainerB (env : BuildEnv) : Option String :=
  if env.dryRun then none else env.stopErr

/-- `Builder.exportTemplate` (builder.go 392–409): `pct template`, then
the container id itself is the template reference. -/
def exportTemplateB (env : BuildEnv) (containerID : Int)
    (templateName : String) : Except String String :=
  if env.dryRun then .ok templateName
  else
    match env.exportErr with
    | some e => .error e
    | none => .ok (toString containerID)

/-- The two actions of `Builder.cleanupTempContainer` (builder.go
411–424), appended by the deferred finalizer while `shouldCleanup`
still holds. -/
def cleanupEvents : List BuildEvent := [.stopCleanup, .destroy]

/-- The setup loop of `BuildTemplate` (builder.go 114–122), carrying the
0-based index: on failure it reports the failing index and its error. -/
def runSetupLoop (env : BuildEnv) (buildArgs : List (String × String)) :
    Nat → List SetupStep → (Except (Nat × String) (List String)) × List BuildEvent
  | _, [] => (.ok [], [])
  | i, step :: rest =>
    match executeSetupStep (env.setupOracle i) env.dryRun step buildArgs with
    | .error e => (.error (i, e), [.setupStep i])
    | .ok _ =>
      match runSetupLoop env buildArgs (i + 1) rest with
      | (.error ie, evs) => (.error ie, .setupStep i :: evs)
      | (.ok labels, evs) =>
        (.ok (("Step " ++ toString (i + 1)) :: labels), .setupStep i :: evs)

/-- The cleanup loop of `BuildTemplate` (builder.go 130–138): a failing
step is a logged warning; only successful steps are recorded. -/
def runCleanupLoop (env : BuildEnv) (buildArgs : List (String × String)) :
    Nat → List SetupStep → List String × List BuildEvent
  | _, [] => ([], [])
  | i, step :: rest =>
    match runCleanupLoop env buildArgs (i + 1) rest with
    | (labels, evs) =>
      match executeSetupStep (env.cleanupOracle i) env.dryRun step buildArgs with
      | .error _ => (labels, .cleanupStep i :: evs)
      | .ok _ => (("Cleanup " ++ toString (i + 1)) :: labels, .cleanupStep i :: evs)

/-- `Builder.BuildTemplate` (builder.go 69–157), returning the result
and the trace of pipeline phases that actually ran. -/
def runBuildTemplate (env : BuildEnv) (lxcfile : LXCfile)
    (templateName : String) (buildArgs : List (String × String)) :
    Except String GoBuildResult × List BuildEvent :=
  match createTempContainer env with
  | some e => (.error ("failed to create temporary container: " ++ e), [.create])
  | none =>
    match startContainerB env with
    | some e => (.error ("failed to start temporary container: " ++ e),
        [.create, .start] ++ cleanupEvents)
    | none =>
      match waitForContainer env with
      | some e => (.error ("container failed to become ready: " ++ e),
          [.create, .start, .waitReady] ++ cleanupEvents)
      | none =>
        match runSetupLoop env buildArgs 0 lxcfile.setup with
        | (.error (i, e), evs) =>
          (.error ("failed to execute Step " ++ toString (i + 1) ++ ": " ++ e),
            [.create, .start, .waitReady] ++ evs ++ cleanupEvents)
        | (.ok setupLabels, evs) =>
          match applyContainerConfig env lxcfile with
          | some e =>
            (.error ("failed to apply container configuration: " ++ e),
              [.create, .start, .waitReady] ++ evs ++ [.applyConfig] ++
                cleanupEvents)
          | none =>
            match runCleanupLoop env buildArgs 0 lxcfile.cleanup with
            | (cleanupLabels, cevs) =>
              match stopContainerB env with
              | some e =>
                (.error ("failed to stop container: " ++ e),
                  [.create, .start, .waitReady] ++ evs ++ [.applyConfig] ++
                    cevs ++ [.stop] ++ cleanupEvents)
              | none =>
                match exportTemplateB env (generateContainerID env) templateName with
                | .error e =>
                  (.error ("failed to export template: " ++ e),
                    [.create, .start, .waitReady] ++ evs ++ [.applyConfig] ++
                      cevs ++ [.stop, .exportTemplate] ++ cleanupEvents)
                | .ok templatePath =>
                  (.ok ⟨templateName, templatePath, generateContainerID env,
                      setupLabels ++ cleanupLabels⟩,
                    [.create, .start, .waitReady] ++ evs ++ [.applyConfig] ++
                      cevs ++ [.stop, .exportTemplate])

end Proxer


namespace Proxer

/-- Running the setup loop over `pre ++ step :: post` where `pre`
succeeds and `step` fails: the loop stops at `step`, reporting its index
and error, having attempted exactly the steps up to and including it. -/
theorem runSetupLoop_fail (env : BuildEnv) (buildArgs : List (String × String)) :
    ∀ (pre : List SetupStep) (i : Nat) (step : SetupStep)
      (post : List SetupStep) (e : String),
      (∀ j (hj : j < pre.length),
        executeSetupStep (env.setupOracle (i + j)) env.dryRun
          (pre.get ⟨j, hj⟩) buildArgs = .ok ()) →
      executeSetupStep (env.setupOracle (i + pre.length)) env.dryRun step
        buildArgs = .error e →
      runSetupLoop env buildArgs i (pre ++ step :: post) =
        (.error (i + pre.length, e),
          (List.range' i (pre.length + 1)).map BuildEvent.setupStep) := by
  intro pre
  induction pre with
  | nil =>
    intro i step post e _ hfail
    show runSetupLoop env buildArgs i (step :: post) = _
    simp only [runSetupLoop]
    rw [show i + List.length [] = i from rfl] at hfail
    rw [hfail]
    simp [List.range']
  | cons s pre ih =>
    intro i step post e hpre hfail
    have hs : executeSetupStep (env.setupOracle i) env.dryRun s buildArgs =
        .ok () := hpre 0 (Nat.succ_pos _)
    have hrec := ih (i + 1) step post e
      (fun j hj => by
        have hn : i + 1 + j = i + (j + 1) := by omega
        rw [hn]
        exact hpre (j + 1) (Nat.succ_lt_succ hj))
      (by
        have hn : i + 1 + pre.length = i + (s :: pre).length := by
          simp only [List.length_cons]
          omega
        rw [hn]
        exact hfail)
    show runSetupLoop env buildArgs i (s :: (pre ++ step :: post)) = _
    simp only [runSetupLoop]
    rw [hs, hrec]
    have hn : i + 1 + pre.length = i + (s :: pre).length := by
      simp only [List.length_cons]
      omega
    rw [hn]
    simp [List.range'_succ]

/-- Running the setup loop over steps that all succeed. -/
theorem runSetupLoop_ok (env : BuildEnv) (buildArgs : List (String × String)) :
    ∀ (steps : List SetupStep) (i : Nat),
      (∀ j (hj : j < steps.length),
        executeSetupStep (env.setupOracle (i + j)) env.dryRun
          (steps.get ⟨j, hj⟩) buildArgs = .ok ()) →
      runSetupLoop env buildArgs i steps =
        (.ok ((List.range' i steps.length).map
            (fun j => "Step " ++ toString (j + 1))),
          (List.range' i steps.length).map BuildEvent.setupStep) := by
  intro steps
  induction steps with
  | nil => intro i _; rfl
  | cons s rest ih =>
    intro i hok
    have hs : executeSetupStep (env.setupOracle i) env.dryRun s buildArgs =
        .ok () := hok 0 (Nat.succ_pos _)
    have hrec := ih (i + 1) (fun j hj => by
      have hn : i + 1 + j = i + (j + 1) := by omega
      rw [hn]
      exact hok (j + 1) (Nat.succ_lt_succ hj))
    simp only [runSetupLoop]
    rw [hs, hrec]
    simp [List.range'_succ]

/-- The cleanup loop always walks every step, whatever their outcomes. -/
theorem runCleanupLoop_events (env : BuildEnv)
    (buildArgs : List (String × String)) :
    ∀ (steps : List SetupStep) (i : Nat),
      (runCleanupLoop env buildArgs i steps).2 =
        (List.range' i steps.length).map BuildEvent.cleanupStep := by
  intro steps
  induction steps with
  | nil => intro i; rfl
  | cons s rest ih =>
    intro i
    simp only [runCleanupLoop]
    rcases hrec : runCleanupLoop env buildArgs (i + 1) rest with ⟨labels, evs⟩
    have hevs : evs =
        (List.range' (i + 1) rest.length).map BuildEvent.cleanupStep := by
      have h := ih (i + 1)
      rw [hrec] at h
      exact h
    cases hex : executeSetupStep (env.cleanupOracle i) env.dryRun s buildArgs with
    | error e => simp [hrec, hex, hevs, List.range'_succ]
    | ok u => cases u; simp [hrec, hex, hevs, List.range'_succ]

end Proxer

namespace Proxer

/-- **C4.** In `BuildTemplate`, if a setup step fails then no later setup
step, no `ApplyConfig`, no cleanup step, no `Stop` phase and no export is
executed: the run attempts exactly create, start, ready-wait and the
setup steps up to and including the failing one, then the ephemeral
container is destroyed (best-effort stop + destroy, never promotion to a
template), and the step's error is returned as the cause. -/
theorem c4_setup_failure_short_circuits (env : BuildEnv) (lxcfile : LXCfile)
    (templateName : String) (buildArgs : List (String × String))
    (pre : List SetupStep) (step : SetupStep) (post : List SetupStep)
    (e : String)
    (hsplit : lxcfile.setup = pre ++ step :: post)
    (hcreate : createTempContainer env = none)
    (hstart : startContainerB env = none)
    (hwait : waitForContainer env = none)
    (hpre : ∀ j (hj : j < pre.length),
      executeSetupStep (env.setupOracle j) env.dryRun (pre.get ⟨j, hj⟩)
        buildArgs = .ok ())
    (hfail : executeSetupStep (env.setupOracle pre.length) env.dryRun step
      buildArgs = .error e) :
    runBuildTemplate env lxcfile templateName buildArgs =
      (.error ("failed to execute Step " ++ toString (pre.length + 1) ++
          ": " ++ e),
        [.create, .start, .waitReady] ++
          (List.range (pre.length + 1)).map BuildEvent.setupStep ++
          [.stopCleanup, .destroy]) := by
  have hloop := runSetupLoop_fail env buildArgs pre 0 step post e
    (fun j hj => by
      have hn : (0 : Nat) + j = j := by omega
      rw [hn]
      exact hpre j hj)
    (by
      have hn : (0 : Nat) + pre.length = pre.length := by omega
      rw [hn]
      exact hfail)
  unfold runBuildTemplate
  rw [hcreate, hstart, hwait, hsplit, hloop]
  show (Except.error ("failed to execute Step " ++ toString (0 + pre.length + 1)
      ++ ": " ++ e),
    [BuildEvent.create, .start, .waitReady] ++
      (List.range' 0 (pre.length + 1)).map BuildEvent.setupStep ++
      cleanupEvents) = _
  rw [show (0 : Nat) + pre.length = pre.length by omega,
    ← List.range_eq_range']
  rfl

/-- A failing-step oracle: the `run` action always fails. -/
def failingStepOracle : StepOracle :=
  { runErr := fun _ => some "exit status 100" }

/-- A build environment whose second setup step fails and everything
else succeeds. -/
def envStep2Fails : BuildEnv :=
  { setupOracle := fun i => if i = 1 then failingStepOracle else {} }

/-- A two-step build manifest. -/
def twoStepFile : LXCfile :=
  { fromBase := "ubuntu-22.04",
    setup := [{ run := "apt-get update" }, { run := "apt-get install -y curl" }] }

/-- Witness for C4: with the second step failing, the pipeline attempts
exactly create, start, wait, both setup steps, then destroys the
container. -/
theorem c4_witness :
    runBuildTemplate envStep2Fails twoStepFile "app:latest" [] =
      (.error ("failed to execute Step " ++ toString (1 + 1) ++
          ": " ++ "exit status 100"),
        [.create, .start, .waitReady] ++
          (List.range (1 + 1)).map BuildEvent.setupStep ++
          [.stopCleanup, .destroy]) :=
  c4_setup_failure_short_circuits envStep2Fails twoStepFile "app:latest" []
    [{ run := "apt-get update" }] { run := "apt-get install -y curl" } []
    "exit status 100" rfl rfl rfl rfl
    (fun j hj => by
      have hj0 : j = 0 := by simpa using hj
      subst hj0
      rfl)
    rfl

end Proxer

namespace Proxer

/-- **C6.** In `BuildTemplate`, failing cleanup steps never abort the
pipeline: with no constraint whatsoever on the cleanup-step oracle, if
everything else succeeds the stop and export phases still run — every
cleanup step is attempted — and the build returns a successful
`BuildResult`. -/
theorem c6_cleanup_failure_does_not_abort (env : BuildEnv) (lxcfile : LXCfile)
    (templateName : String) (buildArgs : List (String × String))
    (hcreate : createTempContainer env = none)
    (hstart : startContainerB env = none)
    (hwait : waitForContainer env = none)
    (hsetup : ∀ j (hj : j < lxcfile.setup.length),
      executeSetupStep (env.setupOracle j) env.dryRun
        (lxcfile.setup.get ⟨j, hj⟩) buildArgs = .ok ())
    (happly : applyContainerConfig env lxcfile = none)
    (hstop : stopContainerB env = none)
    (hexport : env.exportErr = none) :
    ∃ r, runBuildTemplate env lxcfile templateName buildArgs =
      (.ok r,
        [.create, .start, .waitReady] ++
          (List.range lxcfile.setup.length).map BuildEvent.setupStep ++
          [.applyConfig] ++
          (List.range lxcfile.cleanup.length).map BuildEvent.cleanupStep ++
          [.stop, .exportTemplate]) := by
  have hsloop := runSetupLoop_ok env buildArgs lxcfile.setup 0
    (fun j hj => by
      have hn : (0 : Nat) + j = j := by omega
      rw [hn]
      exact hsetup j hj)
  rcases hcloop : runCleanupLoop env buildArgs 0 lxcfile.cleanup with
    ⟨clabels, cevs⟩
  have hcevs : cevs =
      (List.range' 0 lxcfile.cleanup.length).map BuildEvent.cleanupStep := by
    have h := runCleanupLoop_events env buildArgs lxcfile.cleanup 0
    rw [hcloop] at h
    exact h
  have hexp : ∃ tp, exportTemplateB env (generateContainerID env)
      templateName = .ok tp := by
    unfold exportTemplateB
    cases env.dryRun with
    | true => exact ⟨templateName, rfl⟩
    | false =>
      rw [hexport]
      exact ⟨toString (generateContainerID env), rfl⟩
  obtain ⟨tp, hexpeq⟩ := hexp
  refine ⟨⟨templateName, tp, generateContainerID env,
    (List.range' 0 lxcfile.setup.length).map
      (fun j => "Step " ++ toString (j + 1)) ++ clabels⟩, ?_⟩
  unfold runBuildTemplate
  rw [hcreate, hstart, hwait, hsloop, happly, hcloop, hstop, hexpeq]
  rw [hcevs]
  simp only [← List.range_eq_range']

/-- A build environment whose single cleanup step fails and everything
else succeeds. -/
def envCleanupFails : BuildEnv :=
  { cleanupOracle := fun _ => failingStepOracle }

/-- A manifest with one setup step and one cleanup step. -/
def oneCleanupFile : LXCfile :=
  { fromBase := "ubuntu-22.04",
    setup := [{ run := "apt-get update" }],
    cleanup := [{ run := "apt-get clean" }] }

/-- Witness for C6: the failing cleanup step still leaves a successful
build whose trace reaches stop and export. -/
theorem c6_witness :
    ∃ r, runBuildTemplate envCleanupFails oneCleanupFile "app:latest" [] =
      (.ok r,
        [.create, .start, .waitReady] ++
          (List.range oneCleanupFile.setup.length).map BuildEvent.setupStep ++
          [.applyConfig] ++
          (List.range oneCleanupFile.cleanup.length).map
            BuildEvent.cleanupStep ++
          [.stop, .exportTemplate]) :=
  c6_cleanup_failure_does_not_abort envCleanupFails oneCleanupFile
    "app:latest" [] rfl rfl rfl
    (fun j hj => by
      have hj0 : j = 0 := by
        simp [oneCleanupFile] at hj
        omega
      subst hj0
      rfl)
    rfl rfl rfl

end Proxer

namespace Proxer

/-- Every event the setup loop emits is a setup-step event. -/
theorem runSetupLoop_events_shape (env : BuildEnv)
    (buildArgs : List (String × String)) :
    ∀ (steps : List SetupStep) (i : Nat)
      (res : Except (Nat × String) (List String)) (evs : List BuildEvent),
      runSetupLoop env buildArgs i steps = (res, evs) →
      ∀ ev ∈ evs, ∃ j, ev = BuildEvent.setupStep j := by
  intro steps
  induction steps with
  | nil =>
    intro i res evs h ev hev
    simp only [runSetupLoop] at h
    cases h
    simp at hev
  | cons s rest ih =>
    intro i res evs h ev hev
    simp only [runSetupLoop] at h
    split at h
    · cases h
      simp at hev
      exact ⟨i, hev⟩
    · split at h
      · next ie evs' heq =>
        cases h
        rcases List.mem_cons.mp hev with rfl | hmem
        · exact ⟨i, rfl⟩
        · exact ih (i + 1) _ _ heq ev hmem
      · next labels evs' heq =>
        cases h
        rcases List.mem_cons.mp hev with rfl | hmem
        · exact ⟨i, rfl⟩
        · exact ih (i + 1) _ _ heq ev hmem

/-- **C5.** In `BuildTemplate`, once export succeeds the ephemeral
container is never destroyed by the finalizer in that run (no best-effort
stop, no destroy; the container, now the template, is preserved); on any
failure after the container was created, the finalizer stops it
(best-effort) and destroys it, as the last two actions of the run. -/
theorem c5_export_preserves_container (env : BuildEnv) (lxcfile : LXCfile)
    (templateName : String) (buildArgs : List (String × String)) :
    (∀ r tr, runBuildTemplate env lxcfile templateName buildArgs = (.ok r, tr) →
      BuildEvent.destroy ∉ tr ∧ BuildEvent.stopCleanup ∉ tr ∧
        BuildEvent.exportTemplate ∈ tr) ∧
    (∀ e tr,
      runBuildTemplate env lxcfile templateName buildArgs = (.error e, tr) →
      createTempContainer env = none →
      ∃ tr', tr = tr' ++ [BuildEvent.stopCleanup, BuildEvent.destroy]) := by
  constructor
  · intro r tr h
    unfold runBuildTemplate at h
    split at h
    · simp at h
    · split at h
      · simp at h
      · split at h
        · simp at h
        · split at h
          · simp at h
          · next setupLabels evs hsloop =>
            split at h
            · simp at h
            · split at h
              · next cleanupLabels cevs hcloop =>
                split at h
                · simp at h
                · split at h
                  · simp at h
                  · next tp hexp =>
                    have htr : tr =
                        [BuildEvent.create, .start, .waitReady] ++ evs ++
                          [BuildEvent.applyConfig] ++ cevs ++
                          [BuildEvent.stop, BuildEvent.exportTemplate] := by
                      have h2 := congrArg Prod.snd h
                      simpa using h2.symm
                    have hsevs : ∀ ev ∈ evs, ∃ j, ev = BuildEvent.setupStep j :=
                      runSetupLoop_events_shape env buildArgs lxcfile.setup 0
                        _ _ hsloop
                    have hcevs : cevs = (List.range' 0
                        lxcfile.cleanup.length).map BuildEvent.cleanupStep := by
                      have h2 := runCleanupLoop_events env buildArgs
                        lxcfile.cleanup 0
                      rw [hcloop] at h2
                      exact h2
                    refine ⟨?_, ?_, ?_⟩
                    · intro hmem
                      rw [htr] at hmem
                      simp only [List.mem_append, List.mem_cons,
                        List.mem_singleton] at hmem
                      rcases hmem with ((((h1 | h2) | h3) | h4) | h5)
                      · simp at h1
                      · obtain ⟨j, hj⟩ := hsevs _ h2
                        simp at hj
                      · simp at h3
                      · rw [hcevs] at h4
                        simp at h4
                      · simp at h5
                    · intro hmem
                      rw [htr] at hmem
                      simp only [List.mem_append, List.mem_cons,
                        List.mem_singleton] at hmem
                      rcases hmem with ((((h1 | h2) | h3) | h4) | h5)
                      · simp at h1
                      · obtain ⟨j, hj⟩ := hsevs _ h2
                        simp at hj
                      · simp at h3
                      · rw [hcevs] at h4
                        simp at h4
                      · simp at h5
                    · rw [htr]
                      simp
  · intro e tr h hc
    unfold runBuildTemplate at h
    rw [hc] at h
    split at h
    · next e2 heq => exact absurd heq (by simp)
    · split at h
      · have h2 := congrArg Prod.snd h
        simp only at h2
        exact ⟨[BuildEvent.create, .start], by
          rw [← h2]
          rfl⟩
      · split at h
        · have h2 := congrArg Prod.snd h
          simp only at h2
          exact ⟨[BuildEvent.create, .start, .waitReady], by
            rw [← h2]
            rfl⟩
        · split at h
          · next ie evs hsloop =>
            have h2 := congrArg Prod.snd h
            simp only at h2
            refine ⟨[BuildEvent.create, .start, .waitReady] ++ evs, ?_⟩
            rw [← h2]
            simp [cleanupEvents]
          · next setupLabels evs hsloop =>
            split at h
            · have h2 := congrArg Prod.snd h
              simp only at h2
              refine ⟨[BuildEvent.create, .start, .waitReady] ++ evs ++
                [BuildEvent.applyConfig], ?_⟩
              rw [← h2]
              simp [cleanupEvents]
            · split at h
              · next cleanupLabels cevs hcloop =>
                split at h
                · have h2 := congrArg Prod.snd h
                  simp only at h2
                  refine ⟨[BuildEvent.create, .start, .waitReady] ++ evs ++
                    [BuildEvent.applyConfig] ++ cevs ++ [BuildEvent.stop], ?_⟩
                  rw [← h2]
                  simp [cleanupEvents]
                · split at h
                  · next e2 hexp =>
                    have h2 := congrArg Prod.snd h
                    simp only at h2
                    refine ⟨[BuildEvent.create, .start, .waitReady] ++ evs ++
                      [BuildEvent.applyConfig] ++ cevs ++
                      [BuildEvent.stop, BuildEvent.exportTemplate], ?_⟩
                    rw [← h2]
                    simp [cleanupEvents]
                  · simp at h

end Proxer

namespace Proxer

/-- A one-step build manifest for the C5 witness runs. -/
def runStepFile : LXCfile :=
  { fromBase := "ubuntu-22.04", setup := [{ run := "apt-get update" }] }

/-- An environment whose stop phase fails. -/
def envStopFails : BuildEnv := { stopErr := some "stop failed" }

/-- Witness for C5: a fully successful run never stops/destroys the
container after export, and a stop-phase failure ends in best-effort
stop + destroy. -/
theorem c5_witness :
    (BuildEvent.destroy ∉ (runBuildTemplate {} runStepFile "t" []).2 ∧
      BuildEvent.stopCleanup ∉ (runBuildTemplate {} runStepFile "t" []).2 ∧
      BuildEvent.exportTemplate ∈ (runBuildTemplate {} runStepFile "t" []).2) ∧
    ∃ tr', (runBuildTemplate envStopFails runStepFile "t" []).2 =
      tr' ++ [BuildEvent.stopCleanup, BuildEvent.destroy] :=
  ⟨(c5_export_preserves_container {} runStepFile "t" []).1
      ⟨"t", "10000", 10000, ["Step 1"]⟩ _ rfl,
    (c5_export_preserves_container envStopFails runStepFile "t" []).2
      "failed to stop container: stop failed" _ rfl rfl⟩

end Proxer

namespace Proxer

/-! ## Deployment orchestrator (`pkg/runner`, Orchestrator)

The `proxmox.Client` and the `LXCfile` loader are collaborators reached
through a `DeployEnv` oracle; the builder is the verified
`runBuildTemplate` above. -/

/-- `proxmox.ContainerConfig` (the fields the orchestrator writes). -/
structure ContainerConfig where
  hostname : String := ""
  memory : Int := 0
  swap : Int := 0
  cores : Int := 0
  storage : String := ""
  environment : List (String × String) := []
  deriving Repr, DecidableEq

/-- The orchestrator fields the verified code reads (runner 752–761). -/
structure Orchestrator where
  projectName : String := "pxc-project"
  storage : String := ""
  deriving Repr, DecidableEq

/-- Runner 1087–1097: apply the service-level resource limits, each
field only when positive. -/
def applyServiceResources (config : ContainerConfig) (service : Service) :
    ContainerConfig :=
  match service.resources with
  | some r =>
    let config := if r.memory > 0 then { config with memory := r.memory }
      else config
    let config := if r.cores > 0 then { config with cores := r.cores }
      else config
    if r.swap > 0 then { config with swap := r.swap } else config
  | none => config

/-- Runner 1100–1102: default memory when still zero and a defaults
section exists. -/
def applyDefaultMemory (config : ContainerConfig) (stack : LXCStack) :
    ContainerConfig :=
  if config.memory = (0 : Int) then
    match stack.settings with
    | some st =>
      match st.defaultResources with
      | some dr => { config with memory := dr.memory }
      | none => config
    | none => config
  else config

/-- Runner 1103–1105: default cores when still zero and a defaults
section exists (there is no such fallback for swap). -/
def applyDefaultCores (config : ContainerConfig) (stack : LXCStack) :
    ContainerConfig :=
  if config.cores = (0 : Int) then
    match stack.settings with
    | some st =>
      match st.defaultResources with
      | some dr => { config with cores := dr.cores }
      | none => config
    | none => config
  else config

/-- Runner 1108–1110: copy the service environment into the config. -/
def applyEnvironment (config : ContainerConfig) (service : Service) :
    ContainerConfig :=
  { config with environment := service.environment }

/-- Runner 1113–1115: the stack's Proxmox storage overrides the
orchestrator's. -/
def applyStorageOverride (config : ContainerConfig) (stack : LXCStack) :
    ContainerConfig :=
  match stack.settings with
  | some st =>
    match st.proxmox with
    | some px =>
      if px.storage ≠ "" then { config with storage := px.storage } else config
    | none => config
  | none => config

/-- `Orchestrator.buildContainerConfig` (runner 1079–1118), one stage
per statement group. -/
def buildContainerConfig (o : Orchestrator) (service : Service)
    (stack : LXCStack) : ContainerConfig :=
  applyStorageOverride
    (applyEnvironment
      (applyDefaultCores
        (applyDefaultMemory
          (applyServiceResources { environment := [], storage := o.storage }
            service)
          stack)
        stack)
      service)
    stack

/-- The resource field of the service-level override (0 when the
resources section is absent, exactly the Go zero value). -/
def svcField (service : Service) (f : Resources → Int) : Int :=
  match service.resources with
  | some r => f r
  | none => 0

/-- The resource field of the stack-level default resources, when that
section exists. -/
def stackDefault (stack : LXCStack) (f : Resources → Int) : Option Int :=
  match stack.settings with
  | some st =>
    match st.defaultResources with
    | some dr => some (f dr)
    | none => none
  | none => none

/-- Field-level description of `applyServiceResources`. -/
theorem applyServiceResources_fields (c : ContainerConfig) (service : Service) :
    (applyServiceResources c service).memory =
      (if svcField service (fun r => r.memory) > 0 then
        svcField service (fun r => r.memory) else c.memory) ∧
    (applyServiceResources c service).cores =
      (if svcField service (fun r => r.cores) > 0 then
        svcField service (fun r => r.cores) else c.cores) ∧
    (applyServiceResources c service).swap =
      (if svcField service (fun r => r.swap) > 0 then
        svcField service (fun r => r.swap) else c.swap) := by
  unfold applyServiceResources svcField
  rcases service.resources with _ | r
  · simp
  · dsimp only
    split_ifs <;> simp_all

/-- Field-level description of `applyDefaultMemory`. -/
theorem applyDefaultMemory_fields (c : ContainerConfig) (stack : LXCStack) :
    (applyDefaultMemory c stack).memory =
      (if c.memory = 0 then
        (stackDefault stack (fun r => r.memory)).getD c.memory
      else c.memory) ∧
    (applyDefaultMemory c stack).cores = c.cores ∧
    (applyDefaultMemory c stack).swap = c.swap := by
  unfold applyDefaultMemory stackDefault
  rcases stack.settings with _ | st
  · split_ifs <;> simp_all
  · rcases hdr : st.defaultResources with _ | dr
    · split_ifs <;> simp_all
    · split_ifs <;> simp_all

/-- Field-level description of `applyDefaultCores`. -/
theorem applyDefaultCores_fields (c : ContainerConfig) (stack : LXCStack) :
    (applyDefaultCores c stack).memory = c.memory ∧
    (applyDefaultCores c stack).cores =
      (if c.cores = 0 then
        (stackDefault stack (fun r => r.cores)).getD c.cores
      else c.cores) ∧
    (applyDefaultCores c stack).swap = c.swap := by
  unfold applyDefaultCores stackDefault
  rcases stack.settings with _ | st
  · split_ifs <;> simp_all
  · rcases hdr : st.defaultResources with _ | dr
    · split_ifs <;> simp_all
    · split_ifs <;> simp_all

/-- `applyEnvironment` does not touch the resource fields. -/
theorem applyEnvironment_fields (c : ContainerConfig) (service : Service) :
    (applyEnvironment c service).memory = c.memory ∧
    (applyEnvironment c service).cores = c.cores ∧
    (applyEnvironment c service).swap = c.swap :=
  ⟨rfl, rfl, rfl⟩

/-- `applyStorageOverride` does not touch the resource fields. -/
theorem applyStorageOverride_fields (c : ContainerConfig) (stack : LXCStack) :
    (applyStorageOverride c stack).memory = c.memory ∧
    (applyStorageOverride c stack).cores = c.cores ∧
    (applyStorageOverride c stack).swap = c.swap := by
  unfold applyStorageOverride
  rcases stack.settings with _ | st
  · exact ⟨rfl, rfl, rfl⟩
  · rcases hpx : st.proxmox with _ | px
    · simp [hpx]
    · simp only [hpx]
      split_ifs <;> exact ⟨rfl, rfl, rfl⟩

/-- Modelled from the spec: the merge C8 claims for every resource field
— "service-level resource overrides take precedence over stack-level
default resources over the zero value, the first non-zero value
winning". -/
def specMergeField (svcVal defVal : Int) : Int :=
  if svcVal ≠ 0 then svcVal else if defVal ≠ 0 then defVal else 0

/-- An orchestrator, service and stack exhibiting the C8 counterexample:
no service-level resources, stack default swap 512. -/
def o8 : Orchestrator := {}

/-- Service for the C8 counterexample. -/
def svc8 : Service := { template := "t" }

/-- Stack for the C8 counterexample. -/
def stack8 : LXCStack :=
  { version := "1",
    services := [("web", svc8)],
    settings := some { defaultResources := some { swap := 512 } } }

/-- **C8 counterexample.** The claimed first-non-zero merge fails for the
swap field: with no service-level resources and a stack default swap of
512, the claim predicts 512 but `buildContainerConfig` leaves swap 0 —
the code never consults the stack default for swap. -/
theorem c8_counterexample :
    (buildContainerConfig o8 svc8 stack8).swap ≠
      specMergeField (svcField svc8 (fun r => r.swap))
        ((stackDefault stack8 (fun r => r.swap)).getD 0) := by
  decide

/-- **C8 (amended).** In the container configuration `Up` builds for a
service, memory and cores take the service-level value when positive and
otherwise the stack-level default (as-is, when a defaults section
exists); swap takes only the service-level value when positive — the
stack-level default swap is never applied. -/
theorem c8_amended_resource_merge (o : Orchestrator) (service : Service)
    (stack : LXCStack) :
    (buildContainerConfig o service stack).memory =
      (if svcField service (fun r => r.memory) > 0 then
        svcField service (fun r => r.memory)
      else (stackDefault stack (fun r => r.memory)).getD 0) ∧
    (buildContainerConfig o service stack).cores =
      (if svcField service (fun r => r.cores) > 0 then
        svcField service (fun r => r.cores)
      else (stackDefault stack (fun r => r.cores)).getD 0) ∧
    (buildContainerConfig o service stack).swap =
      (if svcField service (fun r => r.swap) > 0 then
        svcField service (fun r => r.swap)
      else 0) := by
  unfold buildContainerConfig
  obtain ⟨hm1, hc1, hw1⟩ := applyServiceResources_fields
    { environment := [], storage := o.storage } service
  set c1 := applyServiceResources { environment := [], storage := o.storage }
    service with hcc1
  obtain ⟨hm2, hc2, hw2⟩ := applyDefaultMemory_fields c1 stack
  set c2 := applyDefaultMemory c1 stack with hcc2
  obtain ⟨hm3, hc3, hw3⟩ := applyDefaultCores_fields c2 stack
  set c3 := applyDefaultCores c2 stack with hcc3
  obtain ⟨hm4, hc4, hw4⟩ := applyEnvironment_fields c3 service
  obtain ⟨hm5, hc5, hw5⟩ := applyStorageOverride_fields
    (applyEnvironment c3 service) stack
  have c0m : ({ environment := [], storage := o.storage } :
    ContainerConfig).memory = 0 := rfl
  have c0c : ({ environment := [], storage := o.storage } :
    ContainerConfig).cores = 0 := rfl
  have c0w : ({ environment := [], storage := o.storage } :
    ContainerConfig).swap = 0 := rfl
  rw [c0m] at hm1
  rw [c0c] at hc1
  rw [c0w] at hw1
  refine ⟨?_, ?_, ?_⟩
  · rw [hm5, hm4, hm3, hm2, hm1]
    split_ifs <;> first | rfl | omega
  · rw [hc5, hc4, hc3, hc2, hc1]
    split_ifs <;> first | rfl | omega
  · rw [hw5, hw4, hw3, hw2, hw1]

end Proxer

namespace Proxer

/-- The collaborators `Orchestrator.Up` reaches besides the builder: the
LXCfile loader (`pkg/config`) and the `proxmox.Client` container
operations, each decided by this oracle.  `CreateContainer` is keyed by
the id, template reference and configuration it receives;
`StartContainer` by the id. -/
structure DeployEnv where
  loadLXCfile : String → Except String LXCfile := fun _ => .error "not found"
  buildEnvFor : String → BuildEnv := fun _ => {}
  createErr : Int → String → ContainerConfig → Option String := fun _ _ _ => none
  startErr : Int → Option String := fun _ => none

/-- `Orchestrator.generateContainerID` (runner 1064–1076): 200 plus a
rolling hash of project name + service name, modulo 1000.  (The Go
function returns an error value that is always nil.) -/
def generateServiceContainerID (o : Orchestrator) (serviceName : String) :
    Int :=
  200 + (o.projectName ++ serviceName).toList.foldl
    (fun h c => (h * 31 + (c.toNat : Int)) % 1000) 0

/-- `Orchestrator.getContainerHostname` (runner 1129–1134). -/
def getContainerHostname (o : Orchestrator) (serviceName : String)
    (service : Service) : String :=
  if service.hostname ≠ "" then service.hostname
  else o.projectName ++ "-" ++ serviceName

/-- `Orchestrator.ensureTemplate` (runner 1024–1061): an explicit
template wins; otherwise the build configuration names an LXCfile
(`filepath.Join` modelled as slash concatenation), which is loaded and
built with the verified build pipeline; the build's template path is the
reference. -/
def ensureTemplate (env : DeployEnv) (o : Orchestrator)
    (serviceName : String) (service : Service) : Except String String :=
  if service.template ≠ "" then .ok service.template
  else
    match service.getBuildConfig with
    | none =>
      .error ("service " ++ serviceName ++
        " must specify either 'template' or 'build'")
    | some bc =>
      let lxcfilePath :=
        if bc.dockerfile = "" then bc.context ++ "/" ++ "LXCfile.yml"
        else bc.context ++ "/" ++ bc.dockerfile
      match env.loadLXCfile lxcfilePath with
      | .error e =>
        .error ("failed to load LXCfile for service " ++ serviceName ++
          ": " ++ e)
      | .ok lxcfile =>
        let templateName := o.projectName ++ "-" ++ serviceName ++ ":latest"
        match (runBuildTemplate (env.buildEnvFor serviceName) lxcfile
            templateName bc.args).1 with
        | .error e =>
          .error ("failed to build template for service " ++ serviceName ++
            ": " ++ e)
        | .ok result => .ok result.templatePath

/-- `runner.ServiceResult` (runner 783–790); the two duration fields are
wall time and not modelled. -/
structure ServiceResult where
  name : String := ""
  containerID : Int := 0
  status : String := ""
  error : Option String := none
  deriving Repr, DecidableEq

/-- `Orchestrator.deployService` (runner 964–1021): template, container
id, configuration, create, configure (a placeholder returning nil),
start, then a warn-only health wait; the first failure is recorded in
the result and stops the stages. -/
def deployService (env : DeployEnv) (o : Orchestrator) (name : String)
    (service : Service) (stack : LXCStack) : ServiceResult :=
  match ensureTemplate env o name service with
  | .error e => { name := name, error := some e }
  | .ok templateName =>
    let containerID := generateServiceContainerID o name
    let config := buildContainerConfig o service stack
    let config := { config with hostname := getContainerHostname o name service }
    match env.createErr containerID templateName config with
    | some e =>
      { name := name, containerID := containerID,
        error := some ("failed to create container: " ++ e) }
    | none =>
      match env.startErr containerID with
      | some e =>
        { name := name, containerID := containerID,
          error := some ("failed to start container: " ++ e) }
      | none =>
        { name := name, containerID := containerID, status := "running" }

/-- `runner.DeploymentResult` (runner 774–780); the network and volume
lists are placeholders that stay empty in this core. -/
structure DeploymentResult where
  services : List ServiceResult := []
  deriving Repr, DecidableEq

/-- The service loop of `Orchestrator.Up` (runner 881–889): deploy in
resolved order, appending each result; the first error aborts,
returning the partial result and a wrapped error. -/
def deployLoop (env : DeployEnv) (o : Orchestrator) (stack : LXCStack) :
    List String → List ServiceResult → List ServiceResult × Option String
  | [], acc => (acc, none)
  | name :: rest, acc =>
    match (deployService env o name ((findService stack.services name).getD {})
        stack).error with
    | some e =>
      (acc ++ [deployService env o name
          ((findService stack.services name).getD {}) stack],
        some ("failed to deploy service " ++ name ++ ": " ++ e))
    | none =>
      deployLoop env o stack rest
        (acc ++ [deployService env o name
          ((findService stack.services name).getD {}) stack])

/-- `Orchestrator.Up` from a loaded stack (runner 839–903): validate,
create networks and volumes (placeholders), resolve the dependency
order, deploy each service in order aborting on the first failure, then
run post-start hooks (a placeholder returning nil, so never failing). -/
def upFromStack (env : DeployEnv) (o : Orchestrator) (stack : LXCStack) :
    Option DeploymentResult × Option String :=
  match LXCStack.validate stack with
  | some e => (none, some ("invalid stack configuration: " ++ e))
  | none =>
    match getServiceDependencyOrder stack.services with
    | .error e =>
      (some {}, some ("failed to resolve service dependencies: " ++ e))
    | .ok order =>
      match deployLoop env o stack order [] with
      | (rs, some e) => (some { services := rs }, some e)
      | (rs, none) => (some { services := rs }, none)

end Proxer

namespace Proxer

/-- The `Up` service loop on an order whose prefix succeeds and whose
next service fails: outcomes for exactly the prefix and the failing
service, nothing after, plus the wrapped error. -/
theorem deployLoop_first_failure (env : DeployEnv) (o : Orchestrator)
    (stack : LXCStack) :
    ∀ (pre : List String) (f : String) (post : List String) (e : String)
      (acc : List ServiceResult),
      (∀ s ∈ pre, (deployService env o s
        ((findService stack.services s).getD {}) stack).error = none) →
      (deployService env o f ((findService stack.services f).getD {})
        stack).error = some e →
      deployLoop env o stack (pre ++ f :: post) acc =
        (acc ++ (pre ++ [f]).map (fun s => deployService env o s
            ((findService stack.services s).getD {}) stack),
          some ("failed to deploy service " ++ f ++ ": " ++ e)) := by
  intro pre
  induction pre with
  | nil =>
    intro f post e acc _ hfail
    show deployLoop env o stack (f :: post) acc = _
    simp only [deployLoop]
    rw [hfail]
    simp
  | cons s pre ih =>
    intro f post e acc hpre hfail
    have hs := hpre s (List.mem_cons_self _ _)
    show deployLoop env o stack (s :: (pre ++ f :: post)) acc = _
    simp only [deployLoop]
    rw [hs]
    rw [ih f post e _ (fun x hx => hpre x (List.mem_cons_of_mem _ hx)) hfail]
    simp

/-- **C7.** During `Up`, the first service in the resolved order whose
deployment (build / create / start) fails aborts immediately: the
returned `DeploymentResult` holds an outcome for every service up to and
including the failing one — successful for the earlier ones, failed for
it — none for any later service, and `Up` returns the wrapped error
alongside this partial result. -/
theorem c7_up_partial_failure (env : DeployEnv) (o : Orchestrator)
    (stack : LXCStack) (pre : List String) (f : String) (post : List String)
    (e : String)
    (hvalid : LXCStack.validate stack = none)
    (horder : getServiceDependencyOrder stack.services = .ok (pre ++ f :: post))
    (hpre : ∀ s ∈ pre, (deployService env o s
      ((findService stack.services s).getD {}) stack).error = none)
    (hfail : (deployService env o f ((findService stack.services f).getD {})
      stack).error = some e) :
    upFromStack env o stack =
      (some { services := (pre ++ [f]).map (fun s => deployService env o s
          ((findService stack.services s).getD {}) stack) },
        some ("failed to deploy service " ++ f ++ ": " ++ e)) := by
  unfold upFromStack
  rw [hvalid, horder]
  show ((match deployLoop env o stack (pre ++ f :: post) [] with
    | (rs, some e) => (some { services := rs }, some e)
    | (rs, none) => (some { services := rs }, none)) :
      Option DeploymentResult × Option String) = _
  rw [deployLoop_first_failure env o stack pre f post e [] hpre hfail]
  simp

/-- The C7 witness stack: `b` depends on `a`, both from templates. -/
def stackC7 : LXCStack :=
  { version := "1",
    services := [("a", { template := "t1" }),
      ("b", { template := "t2", dependsOn := ["a"] })] }

/-- A deploy environment in which creating from template `t2` fails. -/
def envC7 : DeployEnv :=
  { createErr := fun _ tname _ =>
      if tname = "t2" then some "no such template" else none }

/-- Witness for C7: `a` deploys, `b` fails to create, the result stops
at `b`. -/
theorem c7_witness :
    upFromStack envC7 {} stackC7 =
      (some { services := (["a"] ++ ["b"]).map (fun s =>
          deployService envC7 {} s
            ((findService stackC7.services s).getD {}) stackC7) },
        some ("failed to deploy service " ++ "b" ++ ": " ++
          "failed to create container: no such template")) :=
  c7_up_partial_failure envC7 {} stackC7 ["a"] "b" [] _ rfl rfl
    (fun s hs => by
      have hs0 : s = "a" := by simpa using hs
      subst hs0
      rfl)
    rfl

end Proxer
